import Mathlib

/-!
# bob: a multi-project build orchestrator

A shallow embedding of the Go sources `cmd.go`, `labels.go`, `docker.go`,
`bundle.go`, `build.go` and `main.go`, followed by theorems about tag
derivation, pushing, label derivation, build dispatch, project discovery,
change detection and build-directory isolation.

External collaborators (the programs started through `runCommand`, the file
system, the manifest service, the clock) are oracles collected in `Env`.
Every external program that is started is appended to a `Trace`.
-/

namespace Bob

/-! ## Basic types -/

/-- Go `error` values, identified by their message. -/
abbrev Err := String

/-- An absolute, cleaned path, as the list of its components. -/
abbrev Path := List String

/-- The textual form of a path, as handed to external programs. -/
def pathString (p : Path) : String :=
  "/" ++ "/".intercalate p

/-- One started external program: `exec.Command(program, args...)`. -/
structure Cmd where
  program : String
  args : List String
deriving DecidableEq, Repr

/-- The external programs started so far, oldest first. -/
abbrev Trace := List Cmd

/-- Go `BuildConfig` of main.go. `Labels` is the YAML mapping as an association list. -/
structure BuildConfig where
  Kind : String
  Latest : Bool
  Labels : List (String × String)
  Dockerfile : String
  Versons : List String
deriving DecidableEq, Repr

/-- Go `BuilderConfig` of main.go. -/
structure BuilderConfig where
  PrivateRegistry : String
  PublicRegistry : String
  GCPCredentialsFilepath : String
  ArtifactorGCSPrefix : String
  ArtifactorURLPrefix : String
  baseDir : Path
  filepath : String
deriving DecidableEq, Repr

/-- Go `ProjectConfig` of main.go. -/
structure ProjectConfig where
  Dir : Path
  ConfigFilepath : String
  BuildDir : String
  GitRef : String
  GitShortRef : String
  Name : String
  Push : Bool
  Builds : List BuildConfig
deriving DecidableEq, Repr

/-- Go `ArtifactManifest` of main.go. -/
structure ArtifactManifest where
  Timestamp : Int
deriving DecidableEq, Repr

/-- Outcome of `os.Stat` on a descriptor path, as far as the code tells the
cases apart: no error (`found`), an error for which `os.IsNotExist` holds
(`notExist`), any other error (`failed`, for instance permission denied on a
directory without search permission). In the last case `present` records
whether a descriptor is in fact there, which the code cannot see. -/
inductive StatResult
  | found
  | notExist
  | failed (present : Bool)
deriving DecidableEq, Repr

mutual
/-- The file system below the base directory as project discovery observes it.
`file` is an entry for which `os.Stat` fails or reports a non-directory.
`dir readErr probe entries` is an entry that `os.Stat` reports as a directory:
`readErr` is the error of `ioutil.ReadDir` on it (if any), `probe` the outcome
of `os.Stat` on its `build.yml`, `entries` its children. -/
inductive Node
  | file : Node
  | dir (readErr : Option Err) (probe : StatResult) (entries : Entries) : Node
/-- The entries of a directory, in `ioutil.ReadDir` order. -/
inductive Entries
  | nil : Entries
  | cons (name : String) (node : Node) (rest : Entries) : Entries
end

mutual
/-- The source tree as `copyDir` observes it. `file mode content` is a regular
file (`content` is the outcome of `ioutil.ReadFile`), `dir mode readErr entries` a
directory, `link target` a symbolic link that `filepath.EvalSymlinks` resolves
to `target`, `broken e` an entry for which `filepath.EvalSymlinks` or `os.Stat`
fails with `e`. -/
inductive Src
  | file (mode : Nat) (content : Except Err String) : Src
  | dir (mode : Nat) (readErr : Option Err) (entries : SrcEntries) : Src
  | link (target : Src) : Src
  | broken (e : Err) : Src
/-- The entries of a source directory, in `ioutil.ReadDir` order. -/
inductive SrcEntries
  | nil : SrcEntries
  | cons (name : String) (node : Src) (rest : SrcEntries) : SrcEntries
end

/-- An entry of the destination tree, with the permission bits it has once created. -/
inductive DstEntry
  | dir (mode : Nat)
  | file (mode : Nat) (content : String)
  | symlink (target : String)
deriving DecidableEq, Repr

/-- The destination file system: the entries created so far, oldest first. -/
abbrev DstFS := List (Path × DstEntry)

/-- What `http.Get` on a manifest URL yields when the request itself succeeds:
the status code and the outcome of decoding the body as an `ArtifactManifest`. -/
structure Response where
  StatusCode : Nat
  body : Except Err ArtifactManifest

/-- The external world. -/
structure Env where
  /-- Outcome of `cmd.Run()` (captured stdout or error), given what ran before. -/
  exec : Trace → Cmd → Except Err String
  /-- Go `time.Now().Unix()`. -/
  now : Nat
  /-- Opening and decoding `build.yml` of a directory: name and builds. -/
  readProject : Path → Except Err (String × List BuildConfig)
  /-- Go `http.Get`. -/
  httpGet : String → Except Err Response
  /-- Go `os.Stat(path)` returns no error. -/
  statOk : String → Bool
  /-- Go `os.RemoveAll`. -/
  removeAll : String → Option Err
  /-- The process umask: the permission bits cleared from the mode of every file
  and directory the process creates. -/
  umask : Nat
  /-- Go `os.Mkdir(name, perm)` in the scratch area: the error, if any. -/
  mkdir : String → Nat → Option Err
  /-- Go `os.Chdir`. -/
  chdir : String → Option Err
  /-- Go `os.Mkdir(name, perm)` below a build directory: the error, if any. -/
  mkdirDst : Path → Nat → Option Err
  /-- Go `ioutil.WriteFile(name, data, perm)` below a build directory: the error, if any. -/
  writeDst : Path → String → Nat → Option Err
  /-- The tree below a directory as discovery sees it. -/
  tree : Path → Node
  /-- The tree at a directory as `copyDir` sees it. -/
  source : Path → Src
  /-- Order in which the concurrent build units of one project run to completion:
  some permutation of the order in which they were started. -/
  schedule : (started : List BuildConfig) → { order : List BuildConfig // order.Perm started }
  /-- Order in which the concurrent pushes of one image run to completion: some
  permutation of the order in which they were started. -/
  schedulePush : (started : List String) → { order : List String // order.Perm started }

/-! ## String helpers -/

/-- Go `strings.Trim(s, "\n")`. -/
def trimNewlines (s : String) : String :=
  String.mk (((s.toList.dropWhile (· = '\n')).reverse.dropWhile (· = '\n')).reverse)

/-- Go `strings.TrimSuffix(s, "/")`. -/
def trimSuffixSlash (s : String) : String :=
  match s.toList.reverse with
  | '/' :: rest => String.mk rest.reverse
  | _ => s

/-- Worker of `replaceAll`: `skip` characters of a matched occurrence are still to be dropped. -/
def replaceAux (old new : List Char) : List Char → Nat → List Char
  | [], _ => []
  | _ :: cs, skip + 1 => replaceAux old new cs skip
  | c :: cs, 0 =>
    if old.isPrefixOf (c :: cs) then new ++ replaceAux old new cs (old.length - 1)
    else c :: replaceAux old new cs 0

/-- Go `strings.Replace(s, old, new, -1)` for a non-empty `old`. -/
def replaceAll (s old new : String) : String :=
  String.mk (replaceAux old.toList new.toList s.toList 0)

/-- Worker of `splitSpaces`: `cur` is the field being read, reversed. -/
def splitAux : List Char → List Char → List String
  | [], cur => [String.mk cur.reverse]
  | c :: cs, cur =>
    if c = ' ' then String.mk cur.reverse :: splitAux cs [] else splitAux cs (c :: cur)

/-- Go `strings.Split(s, " ")`. -/
def splitSpaces (s : String) : List String :=
  splitAux s.toList []

/-- Go `strconv.Atoi`: an optional sign, then decimal digits, within 64 bits. -/
def atoi (s : String) : Except Err Int :=
  let digits (cs : List Char) : Option Nat :=
    if cs ≠ [] ∧ cs.all Char.isDigit then
      some (cs.foldl (fun n c => 10 * n + (c.toNat - '0'.toNat)) 0)
    else none
  let signed : Option Int :=
    match s.toList with
    | '-' :: cs => (digits cs).map fun n => -(n : Int)
    | '+' :: cs => (digits cs).map fun n => (n : Int)
    | cs => (digits cs).map fun n => (n : Int)
  match signed with
  | some i =>
    if -(2 : Int) ^ 63 ≤ i ∧ i < (2 : Int) ^ 63 then .ok i
    else .error ("strconv.Atoi: parsing " ++ s ++ ": value out of range")
  | none => .error ("strconv.Atoi: parsing " ++ s ++ ": invalid syntax")

/-- The permission bits a file or directory created with `perm` ends up with:
the kernel clears the bits of the process umask. -/
def applyUmask (perm umask : Nat) : Nat :=
  perm ^^^ (perm &&& umask)

/-! ## cmd.go -/

/-- Go `runCommand`: start a program, wait for it, return its stdout or its error. -/
def runCommand (env : Env) (program : String) (args : List String) (tr : Trace) :
    Except Err String × Trace :=
  (env.exec tr ⟨program, args⟩, tr ++ [⟨program, args⟩])

/-- Go `runGitCommand`: run git in the project's source directory. -/
def runGitCommand (env : Env) (projectConfig : ProjectConfig) (args : List String)
    (tr : Trace) : Except Err String × Trace :=
  match runCommand env "git" (["-C", pathString projectConfig.Dir] ++ args) tr with
  | (.error e, tr1) => (.error e, tr1)
  | (.ok res, tr1) => (.ok (trimNewlines res), tr1)

/-- Go `getGitRef`. -/
def getGitRef (env : Env) (projectConfig : ProjectConfig) (tr : Trace) :
    Except Err String × Trace :=
  runGitCommand env projectConfig ["rev-parse", "HEAD"] tr

/-- Go `getGitShortRef`. -/
def getGitShortRef (env : Env) (projectConfig : ProjectConfig) (tr : Trace) :
    Except Err String × Trace :=
  runGitCommand env projectConfig ["rev-parse", "--short", "HEAD"] tr

/-- Go `getLastCommitEpoch`. -/
def getLastCommitEpoch (env : Env) (projectConfig : ProjectConfig) (tr : Trace) :
    Except Err Int × Trace :=
  match runGitCommand env projectConfig ["rev-list", "-1", "HEAD"] tr with
  | (.error e, tr1) => (.error e, tr1)
  | (.ok res, tr1) => (atoi res, tr1)

/-! ## labels.go -/

/-- Go `getSecondEpochTS`. The two reads that `buildLabels` makes in a row fall
in the same second. -/
def getSecondEpochTS (env : Env) : Nat :=
  env.now

/-- The `substitutions` map of `buildLabels`, in source order (Go iterates it in
an unspecified order). -/
def substitutions (env : Env) (projectConfig : ProjectConfig) : List (String × String) :=
  [ ("$\x7bSECOND_TIMESTAMP\x7d", toString (getSecondEpochTS env)),
    ("$\x7bTIMESTAMP\x7d", toString (getSecondEpochTS env)),
    ("$\x7bGIT_REF\x7d", projectConfig.GitRef),
    ("$\x7bGIT_SHORT_REF\x7d", projectConfig.GitShortRef) ]

/-- One iteration of the outer loop of `buildLabels` on the pair `(k, v)`:
substitute in `v`, append `k=v`. -/
def labelStep (subs : List (String × String)) (acc : List String) (kv : String × String) :
    List String :=
  acc ++ [kv.1 ++ "=" ++ subs.foldl (fun v sv => replaceAll v sv.1 sv.2) kv.2]

/-- Go `buildLabels`. The loop is `for k, v := range labels`, where `labels` is the
slice made just before by `make([]string, 0, len(buildConfig.Labels))`: the
range expression is evaluated once, to the empty slice, whatever
`buildConfig.Labels` holds. In that loop `k` is the integer index, which
`%s` would print as `%!s(int=k)`. -/
def buildLabels (env : Env) (projectConfig : ProjectConfig) (_buildConfig : BuildConfig) :
    Except Err (List String) :=
  let labels : List String := []
  let ranged : List (String × String) :=
    labels.enum.map fun kv => ("%!s(int=" ++ toString kv.1 ++ ")", kv.2)
  .ok (ranged.foldl (labelStep (substitutions env projectConfig)) labels)

/-! ## docker.go -/

/-- Go `buildDockerImage`. -/
def buildDockerImage (env : Env) (_builderConfig : BuilderConfig) (projectConfig : ProjectConfig)
    (buildConfig : BuildConfig) (tags : List String) (tr : Trace) : Option Err × Trace :=
  let args := ["build", "-f", buildConfig.Dockerfile, "."]
  match buildLabels env projectConfig buildConfig with
  | .error e => (some e, tr)
  | .ok labels =>
    let args := args ++ labels.flatMap fun label => ["--label", label]
    let args := args ++ tags.flatMap fun tag => ["--tag", tag]
    match runCommand env "docker" args tr with
    | (.error e, tr1) => (some e, tr1)
    | (.ok _, tr1) => (none, tr1)

/-- The goroutines of `pushDockerImages`, one per tag, run to completion in the
order `tags`: the trace grows by one `docker push`, `errCh` by the error if any. -/
def pushAll (env : Env) : List String → Trace → List Err → List Err × Trace
  | [], tr, errCh => (errCh, tr)
  | tag :: rest, tr, errCh =>
    match runCommand env "docker" ["push", tag] tr with
    | (.error e, tr1) => pushAll env rest tr1 (errCh ++ [e])
    | (.ok _, tr1) => pushAll env rest tr1 errCh

/-- Go `pushDockerImages`: after all pushes have finished, the first error in the
channel, or nil. -/
def pushDockerImages (env : Env) (tags : List String) (tr : Trace) : Option Err × Trace :=
  match pushAll env (env.schedulePush tags).1 tr [] with
  | (errCh, tr1) => (errCh.head?, tr1)

/-- The `tags` slice of `buildPublicDockerImage`. -/
def publicTags (builderConfig : BuilderConfig) (projectConfig : ProjectConfig)
    (buildConfig : BuildConfig) (shortGitRef : String) : List String :=
  let tags := [
    "public/" ++ projectConfig.Name ++ ":" ++ shortGitRef,
    "public/" ++ projectConfig.Name ++ ":latest",
    builderConfig.PublicRegistry ++ "/" ++ projectConfig.Name ++ ":" ++ shortGitRef ]
  if buildConfig.Latest then
    tags ++ [builderConfig.PublicRegistry ++ "/" ++ projectConfig.Name ++ ":latest"]
  else tags

/-- The `tags` slice of `buildPrivateDockerImage`. -/
def privateTags (builderConfig : BuilderConfig) (projectConfig : ProjectConfig)
    (buildConfig : BuildConfig) (shortGitRef : String) : List String :=
  let tags := [
    "private/" ++ projectConfig.Name ++ ":" ++ shortGitRef,
    "private/" ++ projectConfig.Name ++ ":latest",
    builderConfig.PrivateRegistry ++ "/" ++ projectConfig.Name ++ ":" ++ shortGitRef ]
  if buildConfig.Latest then
    tags ++ [builderConfig.PrivateRegistry ++ "/" ++ projectConfig.Name ++ ":latest"]
  else tags

/-- Go `buildPublicDockerImage`. -/
def buildPublicDockerImage (env : Env) (builderConfig : BuilderConfig)
    (projectConfig : ProjectConfig) (buildConfig : BuildConfig) (tr : Trace) :
    Option Err × Trace :=
  match getGitShortRef env projectConfig tr with
  | (.error e, tr1) => (some e, tr1)
  | (.ok shortGitRef, tr1) =>
    let tags := publicTags builderConfig projectConfig buildConfig shortGitRef
    match buildDockerImage env builderConfig projectConfig buildConfig tags tr1 with
    | (some e, tr2) => (some e, tr2)
    | (none, tr2) =>
      if !projectConfig.Push then (none, tr2)
      else pushDockerImages env (tags.drop 2) tr2

/-- Go `buildPrivateDockerImage`. -/
def buildPrivateDockerImage (env : Env) (builderConfig : BuilderConfig)
    (projectConfig : ProjectConfig) (buildConfig : BuildConfig) (tr : Trace) :
    Option Err × Trace :=
  match getGitShortRef env projectConfig tr with
  | (.error e, tr1) => (some e, tr1)
  | (.ok shortGitRef, tr1) =>
    let tags := privateTags builderConfig projectConfig buildConfig shortGitRef
    match buildDockerImage env builderConfig projectConfig buildConfig tags tr1 with
    | (some e, tr2) => (some e, tr2)
    | (none, tr2) =>
      if !projectConfig.Push then (none, tr2)
      else pushDockerImages env (tags.drop 2) tr2

/-- Go `buildLocalDockerImage`. -/
def buildLocalDockerImage (env : Env) (builderConfig : BuilderConfig)
    (projectConfig : ProjectConfig) (buildConfig : BuildConfig) (tr : Trace) :
    Option Err × Trace :=
  let tags := ["local/" ++ projectConfig.Name ++ ":latest"]
  match buildDockerImage env builderConfig projectConfig buildConfig tags tr with
  | (some e, tr1) => (some e, tr1)
  | (none, tr1) => (none, tr1)

/-! ## bundle.go -/

/-- Go `buildBundle`. -/
def buildBundle (env : Env) (builderConfig : BuilderConfig) (projectConfig : ProjectConfig)
    (buildConfig : BuildConfig) (tr : Trace) : Option Err × Trace :=
  let safeName := replaceAll projectConfig.Name "/" "--"
  let tempDir := "/tmp/" ++ safeName ++ "--" ++ projectConfig.GitShortRef
  match (if env.statOk tempDir then env.removeAll tempDir else none) with
  | some e => (some e, tr)
  | none =>
    match env.mkdir tempDir 493 with
    | some e => (some e, tr)
    | none =>
      let tag := "builder/" ++ projectConfig.Name ++ ":" ++ projectConfig.GitShortRef
      let args := "build -f " ++ buildConfig.Dockerfile ++ " -t " ++ tag ++ " ."
      match runCommand env "docker" (splitSpaces args) tr with
      | (.error e, tr1) => (some e, tr1)
      | (.ok _, tr1) =>
        let ran : Option Err × Trace :=
          if env.statOk (pathString (projectConfig.Dir ++ ["build"])) then
            let args := "run -v " ++ tempDir ++ ":/output -t " ++ tag ++ " /build"
            match runCommand env "docker" (splitSpaces args) tr1 with
            | (.error e, tr2) => (some e, tr2)
            | (.ok _, tr2) => (none, tr2)
          else (none, tr1)
        match ran with
        | (some e, tr2) => (some e, tr2)
        | (none, tr2) =>
          if !projectConfig.Push then (none, tr2)
          else
            let args := "-dir " ++ tempDir ++ " -version " ++ projectConfig.GitShortRef
              ++ " -latest=true -project " ++ projectConfig.Name
              ++ " -gcs-prefix " ++ builderConfig.ArtifactorGCSPrefix
              ++ " -url-prefix " ++ builderConfig.ArtifactorURLPrefix
            match runCommand env "artifactor" (splitSpaces args) tr2 with
            | (.error e, tr3) => (some e, tr3)
            | (.ok _, tr3) => (none, tr3)

/-! ## build.go -/

mutual
/-- The body of the loop of `copyDir` for one entry, written to `dstPath`:
`filepath.EvalSymlinks` (a link is replaced by what it resolves to), `os.Stat`,
then for a directory `os.Mkdir` and the recursive `copyDir` (its `ioutil.ReadDir`
and its loop), for a file `ioutil.ReadFile` and `ioutil.WriteFile`. Both
create the entry with the source's mode as `perm`, of which the process
umask clears its bits. -/
def copyEntry (env : Env) : Src → Path → DstFS → Except Err DstFS
  | .link target, dstPath, fs => copyEntry env target dstPath fs
  | .broken e, _, _ => .error e
  | .dir mode readErr entries, dstPath, fs =>
    match env.mkdirDst dstPath mode with
    | some e => .error e
    | none =>
      match readErr with
      | some e => .error e
      | none =>
        copyEntries env entries dstPath (fs ++ [(dstPath, .dir (applyUmask mode env.umask))])
  | .file mode content, dstPath, fs =>
    match content with
    | .error e => .error e
    | .ok byts =>
      match env.writeDst dstPath byts mode with
      | some e => .error e
      | none => .ok (fs ++ [(dstPath, .file (applyUmask mode env.umask) byts)])
/-- The loop of `copyDir` over the entries of the source directory. -/
def copyEntries (env : Env) : SrcEntries → Path → DstFS → Except Err DstFS
  | .nil, _, fs => .ok fs
  | .cons name node rest, dst, fs =>
    match copyEntry env node (dst ++ [name]) fs with
    | .error e => .error e
    | .ok fs1 => copyEntries env rest dst fs1
end

/-- Go `copyDir(src, dst)`: `ioutil.ReadDir(src)` (which follows links and fails
on anything but a readable directory), then the loop. -/
def copyDir (env : Env) : Src → Path → DstFS → Except Err DstFS
  | .dir _ (some e) _, _, _ => .error e
  | .dir _ none entries, dst, fs => copyEntries env entries dst fs
  | .link target, dst, fs => copyDir env target dst fs
  | .file _ _, _, _ => .error "not a directory"
  | .broken e, _, _ => .error e

/-- Go `createBuildDir`. Returns the scratch directory and what was created in it. -/
def createBuildDir (env : Env) (projectConfig : ProjectConfig) (tr : Trace) :
    Except Err (String × DstFS) × Trace :=
  match getGitShortRef env projectConfig tr with
  | (.error e, tr1) => (.error e, tr1)
  | (.ok gitShortRef, tr1) =>
    let tempDir : Path :=
      ["tmp", "bob--" ++ projectConfig.Name ++ "--" ++ gitShortRef ++ "--" ++ toString env.now]
    match env.mkdir (pathString tempDir) 493 with
    | some e => (.error e, tr1)
    | none =>
      match copyDir env (env.source projectConfig.Dir) tempDir [] with
      | .error e => (.error e, tr1)
      | .ok fs => (.ok (pathString tempDir, fs), tr1)

/-- Go `build`: run a specific build for a project. -/
def build (env : Env) (builderConfig : BuilderConfig) (projectConfig : ProjectConfig)
    (buildConfig : BuildConfig) (tr : Trace) : Option Err × Trace :=
  if buildConfig.Kind = "docker-public" then
    buildPublicDockerImage env builderConfig projectConfig buildConfig tr
  else if buildConfig.Kind = "docker-private" then
    buildPrivateDockerImage env builderConfig projectConfig buildConfig tr
  else if buildConfig.Kind = "docker-local" then
    buildLocalDockerImage env builderConfig projectConfig buildConfig tr
  else if buildConfig.Kind = "bundle" then
    buildBundle env builderConfig projectConfig buildConfig tr
  else if buildConfig.Kind = "oci" then
    (some "OCI_not_supported_yet", tr)
  else
    (some ("invalid build kind  " ++ buildConfig.Kind), tr)

/-- Go `loadProjectConfig`. Of what the YAML decoder fills in, only the name and
the builds are read later: `Dir`, `GitShortRef` and `GitRef` are overwritten
here, `Push` and `BuildDir` by `buildProjectDir`. -/
def loadProjectConfig (env : Env) (dir : Path) (tr : Trace) :
    Except Err ProjectConfig × Trace :=
  match env.readProject dir with
  | .error e => (.error e, tr)
  | .ok (name, builds) =>
    let projectConfig : ProjectConfig :=
      { Dir := dir, ConfigFilepath := "", BuildDir := "", GitRef := "", GitShortRef := "",
        Name := name, Push := false, Builds := builds }
    match getGitShortRef env projectConfig tr with
    | (.error e, tr1) => (.error e, tr1)
    | (.ok gitShortRef, tr1) =>
      let projectConfig := { projectConfig with GitShortRef := gitShortRef }
      match getGitRef env projectConfig tr1 with
      | (.error e, tr2) => (.error e, tr2)
      | (.ok gitRef, tr2) => (.ok { projectConfig with GitRef := gitRef }, tr2)

/-- The goroutines of `buildProjectDir`, one per started build, run to completion
one after the other in the order given: each appends its commands to the trace
and, if `build` fails, its error to `errCh`. -/
def runUnits (env : Env) (builderConfig : BuilderConfig) (projectConfig : ProjectConfig) :
    List BuildConfig → Trace → List Err → List Err × Trace
  | [], tr, errCh => (errCh, tr)
  | b :: rest, tr, errCh =>
    match build env builderConfig projectConfig b tr with
    | (some e, tr1) => runUnits env builderConfig projectConfig rest tr1 (errCh ++ [e])
    | (none, tr1) => runUnits env builderConfig projectConfig rest tr1 errCh

/-- The builds for which `buildProjectDir` starts a goroutine: those not skipped
by `kind != "all" && kind != buildConfig.Kind`. -/
def startedBuilds (projectConfig : ProjectConfig) (kind : String) : List BuildConfig :=
  projectConfig.Builds.filter fun buildConfig => !(kind != "all" && kind != buildConfig.Kind)

/-- Go `buildProjectDir`. After `wg.Wait()` and `close(errCh)` the `select` receives
the first error sent to the channel, or nil from the closed empty channel. -/
def buildProjectDir (env : Env) (dir : Path) (builderConfig : BuilderConfig) (kind : String)
    (push : Bool) (tr : Trace) : Option Err × Trace :=
  match loadProjectConfig env dir tr with
  | (.error e, tr1) => (some e, tr1)
  | (.ok projectConfig, tr1) =>
    let projectConfig := { projectConfig with Push := push }
    match createBuildDir env projectConfig tr1 with
    | (.error e, tr2) => (some e, tr2)
    | (.ok (buildDir, _), tr2) =>
      let projectConfig := { projectConfig with BuildDir := buildDir }
      match env.chdir projectConfig.BuildDir with
      | some e => (some e, tr2)
      | none =>
        match runUnits env builderConfig projectConfig
            (env.schedule (startedBuilds projectConfig kind)).1 tr2 [] with
        | (errCh, tr3) => (errCh.head?, tr3)

/-! ## main.go -/

/-- Go `fetchManifest`: fetch the latest manifest for a project. -/
def fetchManifest (env : Env) (bobConfig : BuilderConfig) (projectConfig : ProjectConfig) :
    Except Err ArtifactManifest :=
  let url := trimSuffixSlash bobConfig.ArtifactorURLPrefix ++ "/" ++ projectConfig.Name
    ++ "/latest/manifest.json"
  match env.httpGet url with
  | .error e => .error e
  | .ok resp =>
    if resp.StatusCode ≠ 200 then .error "manifest not found"
    else
      match resp.body with
      | .error e => .error e
      | .ok manifest => .ok manifest

mutual
/-- The closure `search` of `findBuildableDirs` on the directory `dir`, whose
observed content is the first argument; `dirs` is the captured slice. Returns
the error and the slice afterwards. -/
def search : Node → Path → List Path → Option Err × List Path
  | .file, _, dirs => (some "not a directory", dirs)
  | .dir (some e) _ _, _, dirs => (some e, dirs)
  | .dir none _ entries, dir, dirs => searchLoop entries dir dirs
/-- The loop of `search` over the entries of `dir`. The value returned by the
nested `search(buildDir)` is dropped, as in the source; `filepath.Abs` is the
identity on the absolute paths met here. -/
def searchLoop : Entries → Path → List Path → Option Err × List Path
  | .nil, _, dirs => (none, dirs)
  | .cons name child rest, dir, dirs =>
    match child with
    | .file => searchLoop rest dir dirs
    | .dir _ probe _ =>
      if probe = StatResult.notExist then
        searchLoop rest dir (search child (dir ++ [name]) dirs).2
      else
        searchLoop rest dir (dirs ++ [dir ++ [name]])
end

/-- Go `findBuildableDirs`. -/
def findBuildableDirs (env : Env) (bobConfig : BuilderConfig) : Except Err (List Path) :=
  match search (env.tree bobConfig.baseDir) bobConfig.baseDir [] with
  | (some e, _) => .error e
  | (none, dirs) => .ok dirs

/-- The loop of `findChangedDirs` over the buildable directories; `buildDirs` is
the slice being filled. -/
def changedLoop (env : Env) (bobConfig : BuilderConfig) :
    List Path → List Path → Trace → Except Err (List Path) × Trace
  | [], buildDirs, tr => (.ok buildDirs, tr)
  | dir :: rest, buildDirs, tr =>
    match loadProjectConfig env dir tr with
    | (.error e, tr1) => (.error e, tr1)
    | (.ok projectConfig, tr1) =>
      match fetchManifest env bobConfig projectConfig with
      | .error _ => changedLoop env bobConfig rest (buildDirs ++ [dir]) tr1
      | .ok manifest =>
        match getLastCommitEpoch env projectConfig tr1 with
        | (.error _, tr2) => changedLoop env bobConfig rest (buildDirs ++ [dir]) tr2
        | (.ok lastCommitTs, tr2) =>
          if manifest.Timestamp > lastCommitTs then changedLoop env bobConfig rest buildDirs tr2
          else changedLoop env bobConfig rest (buildDirs ++ [dir]) tr2

/-- Go `findChangedDirs`. Its last statement is `return []string{}, nil`: the
slice `buildDirs` filled by the loop is not what is returned. -/
def findChangedDirs (env : Env) (bobConfig : BuilderConfig) (tr : Trace) :
    Except Err (List Path) × Trace :=
  match findBuildableDirs env bobConfig with
  | .error e => (.error e, tr)
  | .ok buildableDirs =>
    match changedLoop env bobConfig buildableDirs [] tr with
    | (.error e, tr1) => (.error e, tr1)
    | (.ok _, tr1) => (.ok [], tr1)

/-! ## Vocabulary of the claims -/

/-- A tag ends in `:latest`. -/
def endsInLatest (tag : String) : Bool :=
  decide (":latest".data <:+ tag.data)

/-- A short revision as `git rev-parse --short` prints it: lower-case
hexadecimal digits. -/
def isShortRev (s : String) : Bool :=
  s.data.all fun c => c.isDigit || ('a' ≤ c && c ≤ 'f')

/-- A `docker push` invocation. -/
def isPush (c : Cmd) : Bool :=
  c.program == "docker" && c.args.head? == some "push"

/-- A `docker build` invocation. -/
def isBuild (c : Cmd) : Bool :=
  c.program == "docker" && c.args.head? == some "build"

/-- The invocation `docker push tag`. -/
def pushCmd (tag : String) : Cmd :=
  ⟨"docker", ["push", tag]⟩

/-- The invocation `docker build -f dockerfile . --tag t ...` for the given tags. -/
def buildCmd (dockerfile : String) (tags : List String) : Cmd :=
  ⟨"docker", ["build", "-f", dockerfile, "."] ++ tags.flatMap fun tag => ["--tag", tag]⟩

/-- What each build unit returned, in the order the units ran: the list that
`runUnits` folds into `errCh`. -/
def unitOutcomes (env : Env) (builderConfig : BuilderConfig) (projectConfig : ProjectConfig) :
    List BuildConfig → Trace → List (BuildConfig × Option Err)
  | [], _ => []
  | b :: rest, tr =>
    (b, (build env builderConfig projectConfig b tr).1)
      :: unitOutcomes env builderConfig projectConfig rest
          (build env builderConfig projectConfig b tr).2

/-- The trace once the given build targets have been built one after the other,
starting from the trace `tr`. -/
def unitsTrace (env : Env) (builderConfig : BuilderConfig) (projectConfig : ProjectConfig)
    (units : List BuildConfig) (tr : Trace) : Trace :=
  units.foldl (fun t b => (build env builderConfig projectConfig b t).2) tr

/-- A world in which every external program succeeds and prints `abc123`, every
file-system operation succeeds, the umask is 022, the manifest service is
unreachable, and concurrent units finish in the order they were started. -/
def demoEnv : Env where
  exec := fun _ _ => .ok "abc123\n"
  now := 0
  readProject := fun _ => .ok ("foo", [])
  httpGet := fun _ => .error "connection refused"
  statOk := fun _ => false
  removeAll := fun _ => none
  umask := 18
  mkdir := fun _ _ => none
  chdir := fun _ => none
  mkdirDst := fun _ _ => none
  writeDst := fun _ _ _ => none
  tree := fun _ => .dir none .notExist .nil
  source := fun _ => .dir 493 none .nil
  schedule := fun started => ⟨started, List.Perm.refl started⟩
  schedulePush := fun started => ⟨started, List.Perm.refl started⟩

/-- The world `demoEnv` in which every project declares two builds, of the kinds
`oci` and `tarball`. -/
def failingEnv : Env :=
  { demoEnv with
    readProject := fun _ => .ok ("foo", [
      { Kind := "oci", Latest := false, Labels := [], Dockerfile := "Dockerfile", Versons := [] },
      { Kind := "tarball", Latest := false, Labels := [], Dockerfile := "Dockerfile",
        Versons := [] }]) }

/-- The orchestrator configuration of the examples. -/
def demoBuilder : BuilderConfig where
  PrivateRegistry := "priv.example.com"
  PublicRegistry := "reg.example.com"
  GCPCredentialsFilepath := ""
  ArtifactorGCSPrefix := "gs://artifacts"
  ArtifactorURLPrefix := "https://artifacts.example.com/"
  baseDir := ["repo"]
  filepath := "/repo/bob.yml"

/-- An orchestrator configuration whose public registry endpoint is the literal
string `public`. -/
def publicNamedBuilder : BuilderConfig :=
  { demoBuilder with PublicRegistry := "public" }

/-- The project `foo` of the examples, at short revision `abc123`. -/
def demoProject (push : Bool) : ProjectConfig where
  Dir := ["repo", "foo"]
  ConfigFilepath := ""
  BuildDir := ""
  GitRef := "abc123"
  GitShortRef := "abc123"
  Name := "foo"
  Push := push
  Builds := []

/-- A build target of the examples. -/
def demoBuild (kind : String) (latest : Bool) : BuildConfig where
  Kind := kind
  Latest := latest
  Labels := [("rev", "$\x7bGIT_REF\x7d")]
  Dockerfile := "Dockerfile"
  Versons := []

/-! ## Vocabulary of the discovery claims -/

/-- The names of the entries of a directory. -/
def Entries.names : Entries → List String
  | .nil => []
  | .cons name _ rest => name :: rest.names

/-- The entry of a directory with a given name. -/
def Entries.find : Entries → String → Option Node
  | .nil, _ => none
  | .cons name node rest, wanted => if name = wanted then some node else rest.find wanted

mutual
/-- A tree is well formed when no directory lists a name twice. -/
def wfNode : Node → Bool
  | .file => true
  | .dir _ _ entries => decide entries.names.Nodup && wfEntries entries
/-- Well-formedness of every entry of a directory. -/
def wfEntries : Entries → Bool
  | .nil => true
  | .cons _ node rest => wfNode node && wfEntries rest
end

mutual
/-- Every directory that `search` reads when started on this one can be read:
this one, and below it every directory without descriptor met on the way. -/
def readableNode : Node → Bool
  | .file => true
  | .dir readErr _ entries => readErr.isNone && readableEntries entries
/-- The directories without descriptor among these entries are readable, and so on below them. -/
def readableEntries : Entries → Bool
  | .nil => true
  | .cons _ node rest =>
    (match node with
      | .dir _ .notExist _ => readableNode node
      | _ => true) && readableEntries rest
end

mutual
/-- The paths that `search` on a directory appends to `dirs`, relative to that directory. -/
def recordedBelow : Node → List (List String)
  | .file => []
  | .dir (some _) _ _ => []
  | .dir none _ entries => recordedAmong entries
/-- The paths that the loop of `search` appends to `dirs`, relative to the directory read. -/
def recordedAmong : Entries → List (List String)
  | .nil => []
  | .cons name node rest =>
    (match node with
      | .file => []
      | .dir _ probe _ =>
        if probe = StatResult.notExist then (recordedBelow node).map (name :: ·)
        else [[name]]) ++ recordedAmong rest
end

/-- The outcome of the descriptor probe of the directory at a relative path, if
that path leads to a directory. -/
def probeAt : Entries → List String → Option StatResult
  | _, [] => none
  | entries, [name] =>
    match entries.find name with
    | some (.dir _ probe _) => some probe
    | _ => none
  | entries, name :: next :: rest =>
    match entries.find name with
    | some (.dir _ _ sub) => probeAt sub (next :: rest)
    | _ => none

/-- A directory contains a descriptor. -/
def holdsDescriptor : StatResult → Bool
  | .found => true
  | .notExist => false
  | .failed present => present

/-- The directories of the claim, relative to the base: below the base, with a
descriptor, and with no proper ancestor below the base that has one. -/
def ClaimedBuildable (entries : Entries) (rel : List String) : Prop :=
  (∃ probe, probeAt entries rel = some probe ∧ holdsDescriptor probe = true)
  ∧ ∀ q, q <+: rel → q ≠ [] → q ≠ rel →
      ∃ probe, probeAt entries q = some probe ∧ holdsDescriptor probe = false

/-- The directories the code records, relative to the base: below the base,
whose descriptor probe does not report not-exist, and all of whose proper
ancestors below the base report not-exist. -/
def Recorded (entries : Entries) (rel : List String) : Prop :=
  (∃ probe, probeAt entries rel = some probe ∧ probe ≠ StatResult.notExist)
  ∧ ∀ q, q <+: rel → q ≠ [] → q ≠ rel → probeAt entries q = some StatResult.notExist

/-- The entries of a node. -/
def Node.entries : Node → Entries
  | .file => .nil
  | .dir _ _ entries => entries

/-- The world `demoEnv` with one project directory `foo` below the base; its
manifest cannot be fetched. -/
def changedEnv : Env :=
  { demoEnv with
    tree := fun _ => .dir none .notExist (.cons "foo" (.dir none .found .nil) .nil) }

/-- The world `demoEnv` with two directories below the base: `a`, without
descriptor and unreadable, and the project `b`. -/
def unreadableEnv : Env :=
  { demoEnv with
    tree := fun _ => .dir none .notExist
      (.cons "a" (.dir (some "open /repo/a: permission denied") .notExist .nil)
        (.cons "b" (.dir none .found .nil) .nil)) }

/-- The world `demoEnv` with one directory `a` below the base that holds no
descriptor and whose descriptor probe fails with permission denied. -/
def guardedEnv : Env :=
  { demoEnv with
    tree := fun _ => .dir none .notExist (.cons "a" (.dir none (.failed false) .nil) .nil) }

/-- The world `demoEnv` with, below the base: a directory `a` without descriptor
that holds the project `x`, which itself holds a directory `nested` with a
descriptor; the project `b`; and a plain file `notes`. -/
def nestedEnv : Env :=
  { demoEnv with
    tree := fun _ => .dir none .notExist
      (.cons "a" (.dir none .notExist
          (.cons "x" (.dir none .found (.cons "nested" (.dir none .found .nil) .nil)) .nil))
        (.cons "b" (.dir none .found .nil)
          (.cons "notes" .file .nil))) }

/-! ## Vocabulary of the isolation claim -/

/-- What a source entry resolves to: a symbolic link is followed to its target. -/
def resolveLinks : Src → Src
  | .link target => resolveLinks target
  | node => node

/-- The entries of a source directory, reached through links if need be. -/
def Src.entries : Src → SrcEntries
  | .dir _ _ entries => entries
  | .link target => target.entries
  | _ => .nil

/-- The entry of a source directory with a given name. -/
def SrcEntries.find : SrcEntries → String → Option Src
  | .nil, _ => none
  | .cons name node rest, wanted => if name = wanted then some node else rest.find wanted

/-- The source entry at a relative path; directories on the way may be reached
through links. -/
def sourceAt : SrcEntries → List String → Option Src
  | _, [] => none
  | entries, [name] => entries.find name
  | entries, name :: next :: rest =>
    match (entries.find name).map resolveLinks with
    | some (.dir _ _ sub) => sourceAt sub (next :: rest)
    | _ => none

mutual
/-- The destination entries for a source entry placed at `path`, as the words
of the claim have them, given what becomes of the mode bits (`mask`): a
regular file with the same content for a file, a directory and the copies of
its entries for a directory, and for a symbolic link the copy of what it
resolves to. (Nothing is specified for what cannot be read.) With `mask` the
identity this is the tree of the claim, in which modes are kept. -/
def resolvedCopy (mask : Nat → Nat) : Src → Path → DstFS
  | .file mode (.ok content), path => [(path, .file (mask mode) content)]
  | .file _ (.error _), _ => []
  | .dir mode _ entries, path => (path, .dir (mask mode)) :: resolvedCopyEntries mask entries path
  | .link target, path => resolvedCopy mask target path
  | .broken _, _ => []
/-- The destination entries for the entries of a directory copied to `dst`:
same names, same structure. -/
def resolvedCopyEntries (mask : Nat → Nat) : SrcEntries → Path → DstFS
  | .nil, _ => []
  | .cons name node rest, dst =>
    resolvedCopy mask node (dst ++ [name]) ++ resolvedCopyEntries mask rest dst
end

/-- A destination entry is a symbolic link. -/
def DstEntry.isSymlink : DstEntry → Bool
  | .symlink _ => true
  | _ => false

/-- A source directory holding a regular file, a directory of mode 0750 with a
file in it, a symbolic link to a regular file and a symbolic link to a
directory of mode 0775. -/
def linkedSource : Src :=
  .dir 493 none
    (.cons "Dockerfile" (.file 420 (.ok "FROM scratch"))
      (.cons "conf" (.dir 488 none (.cons "app.yml" (.file 384 (.ok "port: 80")) .nil))
        (.cons "shared.txt" (.link (.file 420 (.ok "shared")))
          (.cons "vendor" (.link (.dir 509 none (.cons "lib.go" (.file 420 (.ok "package lib")) .nil)))
            .nil))))

/-- What copying `linkedSource` to `/tmp/out` creates under the umask 022: the
directory `vendor`, of mode 0775 in the source, has mode 0755. -/
def linkedCopy : DstFS :=
  [(["tmp", "out", "Dockerfile"], .file 420 "FROM scratch"),
   (["tmp", "out", "conf"], .dir 488),
   (["tmp", "out", "conf", "app.yml"], .file 384 "port: 80"),
   (["tmp", "out", "shared.txt"], .file 420 "shared"),
   (["tmp", "out", "vendor"], .dir 493),
   (["tmp", "out", "vendor", "lib.go"], .file 420 "package lib")]

/-! ## Process runner and label lemmas -/

theorem runCommand_trace (env : Env) (program : String) (args : List String) (tr : Trace) :
    (runCommand env program args tr).2 = tr ++ [⟨program, args⟩] := rfl

theorem buildLabels_eq (env : Env) (projectConfig : ProjectConfig) (buildConfig : BuildConfig) :
    buildLabels env projectConfig buildConfig = .ok [] := rfl

theorem getGitShortRef_trace (env : Env) (projectConfig : ProjectConfig) (tr : Trace) :
    (getGitShortRef env projectConfig tr).2 =
      tr ++ [⟨"git", ["-C", pathString projectConfig.Dir, "rev-parse", "--short", "HEAD"]⟩] := by
  unfold getGitShortRef runGitCommand runCommand
  cases env.exec tr ⟨"git", ["-C", pathString projectConfig.Dir] ++ ["rev-parse", "--short", "HEAD"]⟩ <;> rfl

theorem buildDockerImage_trace (env : Env) (builderConfig : BuilderConfig)
    (projectConfig : ProjectConfig) (buildConfig : BuildConfig) (tags : List String)
    (tr : Trace) :
    (buildDockerImage env builderConfig projectConfig buildConfig tags tr).2 =
      tr ++ [buildCmd buildConfig.Dockerfile tags] := by
  unfold buildDockerImage
  simp only [buildLabels_eq, runCommand, buildCmd, List.flatMap_nil, List.append_nil]
  cases env.exec tr ⟨"docker", ["build", "-f", buildConfig.Dockerfile, "."] ++
      tags.flatMap fun tag => ["--tag", tag]⟩ <;> rfl

theorem pushAll_trace (env : Env) (tags : List String) (tr : Trace) (errCh : List Err) :
    (pushAll env tags tr errCh).2 = tr ++ tags.map pushCmd := by
  induction tags generalizing tr errCh with
  | nil => simp [pushAll]
  | cons tag rest ih =>
    unfold pushAll runCommand
    cases env.exec tr ⟨"docker", ["push", tag]⟩ <;> simp [ih, pushCmd]

theorem pushDockerImages_trace (env : Env) (tags : List String) (tr : Trace) :
    (pushDockerImages env tags tr).2 = tr ++ (env.schedulePush tags).1.map pushCmd := by
  unfold pushDockerImages
  exact pushAll_trace env (env.schedulePush tags).1 tr []

/-! ## Tag derivation -/

theorem publicTags_eq (builderConfig : BuilderConfig) (projectConfig : ProjectConfig)
    (buildConfig : BuildConfig) (shortGitRef : String) :
    publicTags builderConfig projectConfig buildConfig shortGitRef =
      ["public/" ++ projectConfig.Name ++ ":" ++ shortGitRef,
        "public/" ++ projectConfig.Name ++ ":latest",
        builderConfig.PublicRegistry ++ "/" ++ projectConfig.Name ++ ":" ++ shortGitRef]
      ++ (if buildConfig.Latest then
            [builderConfig.PublicRegistry ++ "/" ++ projectConfig.Name ++ ":latest"]
          else []) := by
  unfold publicTags
  cases buildConfig.Latest <;> simp

theorem privateTags_eq (builderConfig : BuilderConfig) (projectConfig : ProjectConfig)
    (buildConfig : BuildConfig) (shortGitRef : String) :
    privateTags builderConfig projectConfig buildConfig shortGitRef =
      ["private/" ++ projectConfig.Name ++ ":" ++ shortGitRef,
        "private/" ++ projectConfig.Name ++ ":latest",
        builderConfig.PrivateRegistry ++ "/" ++ projectConfig.Name ++ ":" ++ shortGitRef]
      ++ (if buildConfig.Latest then
            [builderConfig.PrivateRegistry ++ "/" ++ projectConfig.Name ++ ":latest"]
          else []) := by
  unfold privateTags
  cases buildConfig.Latest <;> simp

/-- Once the short revision is known, the public executor runs the image build
with `publicTags`, then the pushes if any. -/
theorem buildPublicDockerImage_trace (env : Env) (builderConfig : BuilderConfig)
    (projectConfig : ProjectConfig) (buildConfig : BuildConfig) (tr tr1 : Trace)
    (shortRev : String) (hgit : getGitShortRef env projectConfig tr = (.ok shortRev, tr1)) :
    ∃ rest, (buildPublicDockerImage env builderConfig projectConfig buildConfig tr).2 =
      tr1 ++ buildCmd buildConfig.Dockerfile
        (publicTags builderConfig projectConfig buildConfig shortRev) :: rest := by
  unfold buildPublicDockerImage
  rw [hgit]
  simp only
  have hb := buildDockerImage_trace env builderConfig projectConfig buildConfig
    (publicTags builderConfig projectConfig buildConfig shortRev) tr1
  rcases hres : buildDockerImage env builderConfig projectConfig buildConfig
    (publicTags builderConfig projectConfig buildConfig shortRev) tr1 with ⟨r, tr2⟩
  rw [hres] at hb
  simp only at hb
  subst hb
  cases r with
  | some e => exact ⟨[], rfl⟩
  | none =>
    cases projectConfig.Push with
    | false => exact ⟨[], rfl⟩
    | true =>
      refine ⟨(env.schedulePush
        ((publicTags builderConfig projectConfig buildConfig shortRev).drop 2)).1.map pushCmd, ?_⟩
      simp [pushDockerImages_trace]

/-- Once the short revision is known, the private executor runs the image build
with `privateTags`, then the pushes if any. -/
theorem buildPrivateDockerImage_trace (env : Env) (builderConfig : BuilderConfig)
    (projectConfig : ProjectConfig) (buildConfig : BuildConfig) (tr tr1 : Trace)
    (shortRev : String) (hgit : getGitShortRef env projectConfig tr = (.ok shortRev, tr1)) :
    ∃ rest, (buildPrivateDockerImage env builderConfig projectConfig buildConfig tr).2 =
      tr1 ++ buildCmd buildConfig.Dockerfile
        (privateTags builderConfig projectConfig buildConfig shortRev) :: rest := by
  unfold buildPrivateDockerImage
  rw [hgit]
  simp only
  have hb := buildDockerImage_trace env builderConfig projectConfig buildConfig
    (privateTags builderConfig projectConfig buildConfig shortRev) tr1
  rcases hres : buildDockerImage env builderConfig projectConfig buildConfig
    (privateTags builderConfig projectConfig buildConfig shortRev) tr1 with ⟨r, tr2⟩
  rw [hres] at hb
  simp only at hb
  subst hb
  cases r with
  | some e => exact ⟨[], rfl⟩
  | none =>
    cases projectConfig.Push with
    | false => exact ⟨[], rfl⟩
    | true =>
      refine ⟨(env.schedulePush
        ((privateTags builderConfig projectConfig buildConfig shortRev).drop 2)).1.map pushCmd, ?_⟩
      simp [pushDockerImages_trace]

/-- C2: whenever the short revision `shortRev` is obtained, the image build that
`buildPublicDockerImage` (resp. `buildPrivateDockerImage`) starts right after
is `docker build -f dockerfile .` with exactly the tags
`public/name:shortRev`, `public/name:latest`, `registry/name:shortRev` (resp.
`private/` and the private registry), followed by `registry/name:latest` if
and only if the target's latest flag is set. -/
theorem image_build_tags (env : Env) (builderConfig : BuilderConfig)
    (projectConfig : ProjectConfig) (buildConfig : BuildConfig) (tr tr1 : Trace)
    (shortRev : String) (hgit : getGitShortRef env projectConfig tr = (.ok shortRev, tr1)) :
    (buildPublicDockerImage env builderConfig projectConfig buildConfig tr).2[tr1.length]? =
      some (buildCmd buildConfig.Dockerfile
        (["public/" ++ projectConfig.Name ++ ":" ++ shortRev,
          "public/" ++ projectConfig.Name ++ ":latest",
          builderConfig.PublicRegistry ++ "/" ++ projectConfig.Name ++ ":" ++ shortRev]
          ++ (if buildConfig.Latest then
                [builderConfig.PublicRegistry ++ "/" ++ projectConfig.Name ++ ":latest"]
              else [])))
    ∧ (buildPrivateDockerImage env builderConfig projectConfig buildConfig tr).2[tr1.length]? =
      some (buildCmd buildConfig.Dockerfile
        (["private/" ++ projectConfig.Name ++ ":" ++ shortRev,
          "private/" ++ projectConfig.Name ++ ":latest",
          builderConfig.PrivateRegistry ++ "/" ++ projectConfig.Name ++ ":" ++ shortRev]
          ++ (if buildConfig.Latest then
                [builderConfig.PrivateRegistry ++ "/" ++ projectConfig.Name ++ ":latest"]
              else []))) := by
  obtain ⟨rest, h⟩ := buildPublicDockerImage_trace env builderConfig projectConfig buildConfig
    tr tr1 shortRev hgit
  obtain ⟨rest', h'⟩ := buildPrivateDockerImage_trace env builderConfig projectConfig buildConfig
    tr tr1 shortRev hgit
  rw [h, h', ← publicTags_eq, ← privateTags_eq,
    List.getElem?_append_right (le_refl _), List.getElem?_append_right (le_refl _)]
  simp

/-- Witness for C2 (the example of the claim): project foo at short revision
abc123, registry reg.example.com, latest set. -/
theorem image_build_tags_witness :
    getGitShortRef demoEnv (demoProject true) [] =
        (.ok "abc123", [⟨"git", ["-C", "/repo/foo", "rev-parse", "--short", "HEAD"]⟩])
    ∧ (buildPublicDockerImage demoEnv demoBuilder (demoProject true)
        (demoBuild "docker-public" true) []).2[1]? =
      some (buildCmd "Dockerfile"
        ["public/foo:abc123", "public/foo:latest", "reg.example.com/foo:abc123",
          "reg.example.com/foo:latest"]) :=
  ⟨by rfl,
   (image_build_tags demoEnv demoBuilder (demoProject true) (demoBuild "docker-public" true) []
      [⟨"git", ["-C", "/repo/foo", "rev-parse", "--short", "HEAD"]⟩] "abc123" (by rfl)).1⟩

theorem latest_data : ":latest".data = [':', 'l', 'a', 't', 'e', 's', 't'] := rfl

/-- A tag whose part after the colon is a short revision does not end in `:latest`. -/
theorem not_endsInLatest_of_shortRev (x rev : String) (h : isShortRev rev = true) :
    endsInLatest (x ++ ":" ++ rev) = false := by
  unfold endsInLatest
  rw [decide_eq_false_iff_not]
  rintro ⟨t, ht⟩
  have hl := congrArg List.getLast? ht
  simp only [String.data_append, latest_data, List.getLast?_append] at hl
  simp at hl
  cases hrev : rev.data.getLast? with
  | none => rw [hrev] at hl; simp at hl
  | some c =>
    rw [hrev] at hl
    simp at hl
    subst hl
    have hmem : 't' ∈ rev.data := List.mem_of_getLast?_eq_some hrev
    unfold isShortRev at h
    rw [List.all_eq_true] at h
    have := h 't' hmem
    revert this
    decide

theorem endsInLatest_latest (x : String) : endsInLatest (x ++ ":latest") = true := by
  unfold endsInLatest
  rw [decide_eq_true_iff]
  exact ⟨x.data, by simp⟩

/-- C9: for every project name, registry endpoint and short revision (as git
prints it: hexadecimal digits), among the registry tags of a public or private
image target, which are the tags after the two locally-scoped ones, none
ends in `:latest` when the latest flag is false and exactly one does when it
is true. -/
theorem registry_latest_count (builderConfig : BuilderConfig) (projectConfig : ProjectConfig)
    (buildConfig : BuildConfig) (shortRev : String) (hrev : isShortRev shortRev = true) :
    ((publicTags builderConfig projectConfig buildConfig shortRev).drop 2).countP endsInLatest
        = (if buildConfig.Latest then 1 else 0)
    ∧ ((privateTags builderConfig projectConfig buildConfig shortRev).drop 2).countP endsInLatest
        = (if buildConfig.Latest then 1 else 0) := by
  have h1 := not_endsInLatest_of_shortRev
    (builderConfig.PublicRegistry ++ "/" ++ projectConfig.Name) shortRev hrev
  have h2 := endsInLatest_latest (builderConfig.PublicRegistry ++ "/" ++ projectConfig.Name)
  have h3 := not_endsInLatest_of_shortRev
    (builderConfig.PrivateRegistry ++ "/" ++ projectConfig.Name) shortRev hrev
  have h4 := endsInLatest_latest (builderConfig.PrivateRegistry ++ "/" ++ projectConfig.Name)
  rw [publicTags_eq, privateTags_eq]
  cases buildConfig.Latest <;> simp [List.countP_cons, h1, h2, h3, h4]

/-- Witness for C9: project foo at short revision abc123 with the latest flag set. -/
theorem registry_latest_count_witness :
    isShortRev "abc123" = true
    ∧ ((publicTags demoBuilder (demoProject true) (demoBuild "docker-public" true)
          "abc123").drop 2).countP endsInLatest = 1 :=
  ⟨by decide,
   (registry_latest_count demoBuilder (demoProject true) (demoBuild "docker-public" true)
      "abc123" (by decide)).1⟩

/-! ## Pushing -/

theorem isBuild_buildCmd (dockerfile : String) (tags : List String) :
    isBuild (buildCmd dockerfile tags) = true := rfl

theorem isPush_buildCmd (dockerfile : String) (tags : List String) :
    isPush (buildCmd dockerfile tags) = false := rfl

theorem countP_isPush_pushCmd (tags : List String) :
    (tags.map pushCmd).countP isPush = tags.length := by
  induction tags with
  | nil => rfl
  | cons t rest ih =>
    have h : isPush (pushCmd t) = true := rfl
    simp [List.countP_cons, h, ih]

theorem countP_isBuild_pushCmd (tags : List String) :
    (tags.map pushCmd).countP isBuild = 0 := by
  induction tags with
  | nil => rfl
  | cons t rest ih =>
    have h : isBuild (pushCmd t) = false := rfl
    simp [List.countP_cons, h, ih]

/-- A registry tag and a local tag with the same tail are equal only if the
registry is named like the local scope. -/
theorem tag_scope_inj (registry scope tail : String)
    (h : registry ++ "/" ++ tail = scope ++ "/" ++ tail) : registry = scope := by
  have hd := congrArg String.data h
  simp only [String.data_append, List.append_assoc] at hd
  exact String.ext ((List.append_left_inj _).1 hd)

/-- With a short revision and a registry not named like the local scope, no
registry tag is textually one of the two local tags. -/
theorem registry_tag_ne_local (registry scope name shortRev t : String) (latest : Bool)
    (hreg : registry ≠ scope) (hrev : isShortRev shortRev = true)
    (ht : t ∈ [registry ++ "/" ++ name ++ ":" ++ shortRev]
      ++ (if latest = true then [registry ++ "/" ++ name ++ ":latest"] else [])) :
    t ∉ [scope ++ "/" ++ name ++ ":" ++ shortRev, scope ++ "/" ++ name ++ ":latest"] := by
  have n1 := not_endsInLatest_of_shortRev (registry ++ "/" ++ name) shortRev hrev
  have n2 := not_endsInLatest_of_shortRev (scope ++ "/" ++ name) shortRev hrev
  have y1 := endsInLatest_latest (registry ++ "/" ++ name)
  have y2 := endsInLatest_latest (scope ++ "/" ++ name)
  have e1 : registry ++ "/" ++ name ++ ":" ++ shortRev ≠ scope ++ "/" ++ name ++ ":" ++ shortRev := by
    intro h
    apply hreg
    apply tag_scope_inj registry scope (name ++ ":" ++ shortRev)
    simpa [String.append_assoc] using h
  have e2 : registry ++ "/" ++ name ++ ":latest" ≠ scope ++ "/" ++ name ++ ":latest" := by
    intro h
    apply hreg
    apply tag_scope_inj registry scope (name ++ ":latest")
    simpa [String.append_assoc] using h
  have e3 : registry ++ "/" ++ name ++ ":" ++ shortRev ≠ scope ++ "/" ++ name ++ ":latest" := by
    intro h
    rw [h, y2] at n1
    exact Bool.noConfusion n1
  have e4 : registry ++ "/" ++ name ++ ":latest" ≠ scope ++ "/" ++ name ++ ":" ++ shortRev := by
    intro h
    rw [← h, y1] at n2
    exact Bool.noConfusion n2
  simp only [List.mem_append, List.mem_singleton] at ht
  simp only [List.mem_cons, List.mem_singleton, List.not_mem_nil, or_false, not_or]
  rcases ht with ht | ht
  · subst ht
    exact ⟨e1, e3⟩
  · split at ht
    · simp only [List.mem_singleton] at ht
      subst ht
      exact ⟨e4, e2⟩
    · simp at ht

/-- The commands of the public executor once the short revision is known and
the image build has succeeded. -/
theorem buildPublicDockerImage_run (env : Env) (builderConfig : BuilderConfig)
    (projectConfig : ProjectConfig) (buildConfig : BuildConfig) (tr tr1 tr2 : Trace)
    (shortRev : String) (hgit : getGitShortRef env projectConfig tr = (.ok shortRev, tr1))
    (hbuild : buildDockerImage env builderConfig projectConfig buildConfig
      (publicTags builderConfig projectConfig buildConfig shortRev) tr1 = (none, tr2)) :
    (buildPublicDockerImage env builderConfig projectConfig buildConfig tr).2 =
      tr1 ++ buildCmd buildConfig.Dockerfile
          (publicTags builderConfig projectConfig buildConfig shortRev)
        :: (if projectConfig.Push = true then
              (env.schedulePush
                ((publicTags builderConfig projectConfig buildConfig shortRev).drop 2)).1
            else []).map pushCmd := by
  have hb := buildDockerImage_trace env builderConfig projectConfig buildConfig
    (publicTags builderConfig projectConfig buildConfig shortRev) tr1
  rw [hbuild] at hb
  simp only at hb
  unfold buildPublicDockerImage
  rw [hgit]
  simp only
  rw [hbuild]
  simp only
  cases projectConfig.Push with
  | false => simp [hb]
  | true => simp [hb, pushDockerImages_trace]

/-- The commands of the private executor once the short revision is known and
the image build has succeeded. -/
theorem buildPrivateDockerImage_run (env : Env) (builderConfig : BuilderConfig)
    (projectConfig : ProjectConfig) (buildConfig : BuildConfig) (tr tr1 tr2 : Trace)
    (shortRev : String) (hgit : getGitShortRef env projectConfig tr = (.ok shortRev, tr1))
    (hbuild : buildDockerImage env builderConfig projectConfig buildConfig
      (privateTags builderConfig projectConfig buildConfig shortRev) tr1 = (none, tr2)) :
    (buildPrivateDockerImage env builderConfig projectConfig buildConfig tr).2 =
      tr1 ++ buildCmd buildConfig.Dockerfile
          (privateTags builderConfig projectConfig buildConfig shortRev)
        :: (if projectConfig.Push = true then
              (env.schedulePush
                ((privateTags builderConfig projectConfig buildConfig shortRev).drop 2)).1
            else []).map pushCmd := by
  have hb := buildDockerImage_trace env builderConfig projectConfig buildConfig
    (privateTags builderConfig projectConfig buildConfig shortRev) tr1
  rw [hbuild] at hb
  simp only at hb
  unfold buildPrivateDockerImage
  rw [hgit]
  simp only
  rw [hbuild]
  simp only
  cases projectConfig.Push with
  | false => simp [hb]
  | true => simp [hb, pushDockerImages_trace]

theorem publicTags_drop (builderConfig : BuilderConfig) (projectConfig : ProjectConfig)
    (buildConfig : BuildConfig) (shortRev : String) :
    (publicTags builderConfig projectConfig buildConfig shortRev).drop 2 =
      [builderConfig.PublicRegistry ++ "/" ++ projectConfig.Name ++ ":" ++ shortRev]
      ++ (if buildConfig.Latest = true then
            [builderConfig.PublicRegistry ++ "/" ++ projectConfig.Name ++ ":latest"]
          else []) := by
  rw [publicTags_eq]; rfl

theorem privateTags_drop (builderConfig : BuilderConfig) (projectConfig : ProjectConfig)
    (buildConfig : BuildConfig) (shortRev : String) :
    (privateTags builderConfig projectConfig buildConfig shortRev).drop 2 =
      [builderConfig.PrivateRegistry ++ "/" ++ projectConfig.Name ++ ":" ++ shortRev]
      ++ (if buildConfig.Latest = true then
            [builderConfig.PrivateRegistry ++ "/" ++ projectConfig.Name ++ ":latest"]
          else []) := by
  rw [privateTags_eq]; rfl

theorem publicTags_take (builderConfig : BuilderConfig) (projectConfig : ProjectConfig)
    (buildConfig : BuildConfig) (shortRev : String) :
    (publicTags builderConfig projectConfig buildConfig shortRev).take 2 =
      ["public" ++ "/" ++ projectConfig.Name ++ ":" ++ shortRev,
        "public" ++ "/" ++ projectConfig.Name ++ ":latest"] := by
  rw [publicTags_eq]; rfl

theorem privateTags_take (builderConfig : BuilderConfig) (projectConfig : ProjectConfig)
    (buildConfig : BuildConfig) (shortRev : String) :
    (privateTags builderConfig projectConfig buildConfig shortRev).take 2 =
      ["private" ++ "/" ++ projectConfig.Name ++ ":" ++ shortRev,
        "private" ++ "/" ++ projectConfig.Name ++ ":latest"] := by
  rw [privateTags_eq]; rfl

/-- The shape common to the public and the private executor: after the
commands `tr1`, one image build, then one push per element of `pushed`. -/
theorem counts_of_run (tr tr1 out : Trace) (dockerfile : String) (tags pushed : List String)
    (gitCmd : Cmd) (hgitCmd : isBuild gitCmd = false ∧ isPush gitCmd = false)
    (htr1 : tr1 = tr ++ [gitCmd])
    (hout : out = tr1 ++ buildCmd dockerfile tags :: pushed.map pushCmd) :
    (out.drop tr.length).countP isBuild = 1
    ∧ (out.drop tr.length).countP isPush = pushed.length := by
  subst htr1
  subst hout
  have hd : (tr ++ [gitCmd] ++ buildCmd dockerfile tags :: pushed.map pushCmd).drop tr.length
      = gitCmd :: buildCmd dockerfile tags :: pushed.map pushCmd := by
    rw [List.append_assoc, List.drop_left]
    rfl
  rw [hd]
  constructor
  · rw [List.countP_cons, List.countP_cons, hgitCmd.1, isBuild_buildCmd,
      countP_isBuild_pushCmd]
    rfl
  · rw [List.countP_cons, List.countP_cons, hgitCmd.2, isPush_buildCmd,
      countP_isPush_pushCmd]
    simp

/-- The pushes of an executor whose tags are `tags`: those the scheduler makes
of `tags.drop 2` when the push flag is set, none otherwise. They are a
permutation of the registry tags, and no local tag is among them unless the
registry is named like the local scope. -/
theorem pushed_facts (env : Env) (push latest : Bool) (tags : List String)
    (registry scope name shortRev : String)
    (hdrop : tags.drop 2 = [registry ++ "/" ++ name ++ ":" ++ shortRev]
      ++ (if latest = true then [registry ++ "/" ++ name ++ ":latest"] else [])) :
    (push = true →
      (if push = true then (env.schedulePush (tags.drop 2)).1 else []).Perm
        ([registry ++ "/" ++ name ++ ":" ++ shortRev]
          ++ (if latest = true then [registry ++ "/" ++ name ++ ":latest"] else [])))
    ∧ (push = false → (if push = true then (env.schedulePush (tags.drop 2)).1 else []) = [])
    ∧ (registry ≠ scope → isShortRev shortRev = true →
        ∀ t ∈ (if push = true then (env.schedulePush (tags.drop 2)).1 else []),
          t ∉ [scope ++ "/" ++ name ++ ":" ++ shortRev, scope ++ "/" ++ name ++ ":latest"]) := by
  refine ⟨?_, ?_, ?_⟩
  · intro hp
    rw [if_pos hp, ← hdrop]
    exact (env.schedulePush (tags.drop 2)).2
  · intro hp
    rw [hp]
    rfl
  · intro hreg hrev t ht
    cases push with
    | false => simp at ht
    | true =>
      rw [if_pos rfl] at ht
      have hmem := ((env.schedulePush (tags.drop 2)).2.mem_iff).1 ht
      rw [hdrop] at hmem
      exact registry_tag_ne_local registry scope name shortRev t latest hreg hrev hmem

/-- C3 (amended): for an image target whose build succeeds, the public (resp.
private) executor runs exactly one image build and then, when the push flag is
set, exactly one `docker push` per registry tag (`registry/name:shortRev`,
plus `registry/name:latest` iff the latest flag is set) and no other push;
when the push flag is not set there is no push. The two local tags are not
among the pushed tags provided the registry endpoint is not itself the
literal `public` (resp. `private`), for a short revision as git prints it.
The local executor runs exactly one image build and no push, whatever the
push flag. -/
theorem push_registry_tags_only (env : Env) (builderConfig : BuilderConfig)
    (projectConfig : ProjectConfig) (buildConfig : BuildConfig) (tr tr1 : Trace)
    (shortRev : String) (hgit : getGitShortRef env projectConfig tr = (.ok shortRev, tr1)) :
    (∀ tr2, buildDockerImage env builderConfig projectConfig buildConfig
        (publicTags builderConfig projectConfig buildConfig shortRev) tr1 = (none, tr2) →
      ∃ pushed : List String,
        (buildPublicDockerImage env builderConfig projectConfig buildConfig tr).2 =
          tr1 ++ buildCmd buildConfig.Dockerfile
            (publicTags builderConfig projectConfig buildConfig shortRev) :: pushed.map pushCmd
        ∧ ((buildPublicDockerImage env builderConfig projectConfig buildConfig tr).2.drop
            tr.length).countP isBuild = 1
        ∧ ((buildPublicDockerImage env builderConfig projectConfig buildConfig tr).2.drop
            tr.length).countP isPush = pushed.length
        ∧ (projectConfig.Push = true → pushed.Perm
            ([builderConfig.PublicRegistry ++ "/" ++ projectConfig.Name ++ ":" ++ shortRev]
              ++ (if buildConfig.Latest = true then
                    [builderConfig.PublicRegistry ++ "/" ++ projectConfig.Name ++ ":latest"]
                  else [])))
        ∧ (projectConfig.Push = false → pushed = [])
        ∧ (builderConfig.PublicRegistry ≠ "public" → isShortRev shortRev = true →
            ∀ t ∈ pushed,
              t ∉ (publicTags builderConfig projectConfig buildConfig shortRev).take 2))
    ∧ (∀ tr2, buildDockerImage env builderConfig projectConfig buildConfig
        (privateTags builderConfig projectConfig buildConfig shortRev) tr1 = (none, tr2) →
      ∃ pushed : List String,
        (buildPrivateDockerImage env builderConfig projectConfig buildConfig tr).2 =
          tr1 ++ buildCmd buildConfig.Dockerfile
            (privateTags builderConfig projectConfig buildConfig shortRev) :: pushed.map pushCmd
        ∧ ((buildPrivateDockerImage env builderConfig projectConfig buildConfig tr).2.drop
            tr.length).countP isBuild = 1
        ∧ ((buildPrivateDockerImage env builderConfig projectConfig buildConfig tr).2.drop
            tr.length).countP isPush = pushed.length
        ∧ (projectConfig.Push = true → pushed.Perm
            ([builderConfig.PrivateRegistry ++ "/" ++ projectConfig.Name ++ ":" ++ shortRev]
              ++ (if buildConfig.Latest = true then
                    [builderConfig.PrivateRegistry ++ "/" ++ projectConfig.Name ++ ":latest"]
                  else [])))
        ∧ (projectConfig.Push = false → pushed = [])
        ∧ (builderConfig.PrivateRegistry ≠ "private" → isShortRev shortRev = true →
            ∀ t ∈ pushed,
              t ∉ (privateTags builderConfig projectConfig buildConfig shortRev).take 2))
    ∧ (∀ tr2, buildDockerImage env builderConfig projectConfig buildConfig
        ["local/" ++ projectConfig.Name ++ ":latest"] tr = (none, tr2) →
      (buildLocalDockerImage env builderConfig projectConfig buildConfig tr).2 =
          tr ++ [buildCmd buildConfig.Dockerfile ["local/" ++ projectConfig.Name ++ ":latest"]]
        ∧ ((buildLocalDockerImage env builderConfig projectConfig buildConfig tr).2.drop
            tr.length).countP isBuild = 1
        ∧ ((buildLocalDockerImage env builderConfig projectConfig buildConfig tr).2.drop
            tr.length).countP isPush = 0) := by
  have htr1 : tr1 = tr ++ [⟨"git", ["-C", pathString projectConfig.Dir, "rev-parse", "--short",
      "HEAD"]⟩] := by
    have h := getGitShortRef_trace env projectConfig tr
    rw [hgit] at h
    exact h
  refine ⟨?_, ?_, ?_⟩
  · intro tr2 hbuild
    have hrun := buildPublicDockerImage_run env builderConfig projectConfig buildConfig tr tr1
      tr2 shortRev hgit hbuild
    have hc := counts_of_run tr tr1 _ buildConfig.Dockerfile _ _
      ⟨"git", ["-C", pathString projectConfig.Dir, "rev-parse", "--short", "HEAD"]⟩
      ⟨rfl, rfl⟩ htr1 hrun
    have hf := pushed_facts env projectConfig.Push buildConfig.Latest
      (publicTags builderConfig projectConfig buildConfig shortRev)
      builderConfig.PublicRegistry "public" projectConfig.Name shortRev
      (publicTags_drop builderConfig projectConfig buildConfig shortRev)
    rw [← publicTags_take] at hf
    exact ⟨_, hrun, hc.1, hc.2, hf.1, hf.2.1, hf.2.2⟩
  · intro tr2 hbuild
    have hrun := buildPrivateDockerImage_run env builderConfig projectConfig buildConfig tr tr1
      tr2 shortRev hgit hbuild
    have hc := counts_of_run tr tr1 _ buildConfig.Dockerfile _ _
      ⟨"git", ["-C", pathString projectConfig.Dir, "rev-parse", "--short", "HEAD"]⟩
      ⟨rfl, rfl⟩ htr1 hrun
    have hf := pushed_facts env projectConfig.Push buildConfig.Latest
      (privateTags builderConfig projectConfig buildConfig shortRev)
      builderConfig.PrivateRegistry "private" projectConfig.Name shortRev
      (privateTags_drop builderConfig projectConfig buildConfig shortRev)
    rw [← privateTags_take] at hf
    exact ⟨_, hrun, hc.1, hc.2, hf.1, hf.2.1, hf.2.2⟩
  · intro tr2 hbuild
    have hb := buildDockerImage_trace env builderConfig projectConfig buildConfig
      ["local/" ++ projectConfig.Name ++ ":latest"] tr
    have hrun : (buildLocalDockerImage env builderConfig projectConfig buildConfig tr).2 =
        tr ++ [buildCmd buildConfig.Dockerfile ["local/" ++ projectConfig.Name ++ ":latest"]] := by
      unfold buildLocalDockerImage
      rw [hbuild] at hb
      simp only [hbuild]
      exact hb
    refine ⟨hrun, ?_, ?_⟩
    · rw [hrun, List.drop_left]; rfl
    · rw [hrun, List.drop_left]; rfl

/-- Witness for C3: project foo, public image, latest and push set: the build
succeeds and exactly two pushes follow. -/
theorem push_registry_tags_only_witness :
    getGitShortRef demoEnv (demoProject true) [] =
        (.ok "abc123", [⟨"git", ["-C", "/repo/foo", "rev-parse", "--short", "HEAD"]⟩])
    ∧ ((buildPublicDockerImage demoEnv demoBuilder (demoProject true)
          (demoBuild "docker-public" true) []).2.drop 0).countP isPush = 2 := by
  refine ⟨rfl, ?_⟩
  obtain ⟨pushed, _, _, hcount, hperm, _⟩ :=
    (push_registry_tags_only demoEnv demoBuilder (demoProject true)
      (demoBuild "docker-public" true) []
      [⟨"git", ["-C", "/repo/foo", "rev-parse", "--short", "HEAD"]⟩] "abc123" rfl).1 _ rfl
  have hlen := (hperm rfl).length_eq
  rw [List.length_nil] at hcount
  rw [hcount, hlen]
  rfl

/-- Counterexample to C3 as stated: with the public registry endpoint `public`,
the one tag pushed for project foo at abc123 is `public/foo:abc123`, which is
the first of the two local tags. -/
theorem push_local_tag_counterexample :
    buildPublicDockerImage demoEnv publicNamedBuilder (demoProject true)
        (demoBuild "docker-public" false) [] =
      (none, [⟨"git", ["-C", "/repo/foo", "rev-parse", "--short", "HEAD"]⟩,
        buildCmd "Dockerfile" ["public/foo:abc123", "public/foo:latest", "public/foo:abc123"],
        pushCmd "public/foo:abc123"])
    ∧ ¬ (∀ t ∈ (publicTags publicNamedBuilder (demoProject true)
            (demoBuild "docker-public" false) "abc123").take 2,
          pushCmd t ∉ (buildPublicDockerImage demoEnv publicNamedBuilder (demoProject true)
            (demoBuild "docker-public" false) []).2) := by
  refine ⟨rfl, ?_⟩
  intro h
  exact h "public/foo:abc123" (by decide) (by decide)

/-! ## Label derivation -/

/-- C4 (failing input): a target that declares the one label
`rev=$\x7bGIT_REF\x7d`, in project foo at revision abc123. `buildLabels`
returns no string at all, where the claim has the one string `rev=abc123`,
which is what the loop body yields when run on the declared labels. -/
theorem buildLabels_drops_declared_labels :
    (demoBuild "docker-public" true).Labels = [("rev", "$\x7bGIT_REF\x7d")]
    ∧ buildLabels demoEnv (demoProject true) (demoBuild "docker-public" true) = .ok []
    ∧ (demoBuild "docker-public" true).Labels.foldl
        (labelStep (substitutions demoEnv (demoProject true))) [] = ["rev=abc123"] := by
  refine ⟨rfl, rfl, ?_⟩
  decide

/-! ## Build dispatch -/

/-- C8: a build target whose kind is none of docker-public, docker-private,
docker-local, bundle makes `build` return an error and start no external
program: `OCI_not_supported_yet` for the kind `oci`, otherwise
`invalid build kind  ` followed by the offending kind, and the two messages
never coincide; each of the four supported kinds is handed to its one
executor. -/
theorem build_dispatch (env : Env) (builderConfig : BuilderConfig)
    (projectConfig : ProjectConfig) (buildConfig : BuildConfig) (tr : Trace) :
    (buildConfig.Kind ∉ ["docker-public", "docker-private", "docker-local", "bundle"] →
      (build env builderConfig projectConfig buildConfig tr).2 = tr
      ∧ (buildConfig.Kind = "oci" →
          (build env builderConfig projectConfig buildConfig tr).1 = some "OCI_not_supported_yet")
      ∧ (buildConfig.Kind ≠ "oci" →
          (build env builderConfig projectConfig buildConfig tr).1 =
            some ("invalid build kind  " ++ buildConfig.Kind))
      ∧ ("OCI_not_supported_yet" : String) ≠ "invalid build kind  " ++ buildConfig.Kind)
    ∧ (buildConfig.Kind = "docker-public" →
        build env builderConfig projectConfig buildConfig tr =
          buildPublicDockerImage env builderConfig projectConfig buildConfig tr)
    ∧ (buildConfig.Kind = "docker-private" →
        build env builderConfig projectConfig buildConfig tr =
          buildPrivateDockerImage env builderConfig projectConfig buildConfig tr)
    ∧ (buildConfig.Kind = "docker-local" →
        build env builderConfig projectConfig buildConfig tr =
          buildLocalDockerImage env builderConfig projectConfig buildConfig tr)
    ∧ (buildConfig.Kind = "bundle" →
        build env builderConfig projectConfig buildConfig tr =
          buildBundle env builderConfig projectConfig buildConfig tr) := by
  refine ⟨?_, ?_, ?_, ?_, ?_⟩
  · intro hk
    simp only [List.mem_cons, List.mem_singleton, List.not_mem_nil, or_false, not_or] at hk
    obtain ⟨h1, h2, h3, h4⟩ := hk
    refine ⟨?_, ?_, ?_, ?_⟩
    · unfold build
      rw [if_neg h1, if_neg h2, if_neg h3, if_neg h4]
      split <;> rfl
    · intro ho
      unfold build
      rw [if_neg h1, if_neg h2, if_neg h3, if_neg h4, if_pos ho]
    · intro ho
      unfold build
      rw [if_neg h1, if_neg h2, if_neg h3, if_neg h4, if_neg ho]
    · intro h
      have hd := congrArg (fun s : String => s.data.head?) h
      simp only [String.data_append] at hd
      rw [List.cons_append, List.head?_cons, List.head?_cons] at hd
      exact absurd (Option.some.inj hd) (by decide)
  · intro h
    unfold build
    rw [if_pos h]
  · intro h
    have h1 : buildConfig.Kind ≠ "docker-public" := by rw [h]; decide
    unfold build
    rw [if_neg h1, if_pos h]
  · intro h
    have h1 : buildConfig.Kind ≠ "docker-public" := by rw [h]; decide
    have h2 : buildConfig.Kind ≠ "docker-private" := by rw [h]; decide
    unfold build
    rw [if_neg h1, if_neg h2, if_pos h]
  · intro h
    have h1 : buildConfig.Kind ≠ "docker-public" := by rw [h]; decide
    have h2 : buildConfig.Kind ≠ "docker-private" := by rw [h]; decide
    have h3 : buildConfig.Kind ≠ "docker-local" := by rw [h]; decide
    unfold build
    rw [if_neg h1, if_neg h2, if_neg h3, if_pos h]

/-- Witness for C8: the kinds `oci` and `tarball` in project foo. -/
theorem build_dispatch_witness :
    build demoEnv demoBuilder (demoProject true) (demoBuild "oci" false) [] =
        (some "OCI_not_supported_yet", [])
    ∧ (build demoEnv demoBuilder (demoProject true) (demoBuild "tarball" false) []).1 =
        some "invalid build kind  tarball" := by
  have h1 := (build_dispatch demoEnv demoBuilder (demoProject true) (demoBuild "oci" false) []).1
    (by decide)
  have h2 := (build_dispatch demoEnv demoBuilder (demoProject true)
    (demoBuild "tarball" false) []).1 (by decide)
  exact ⟨Prod.ext (h1.2.1 rfl) h1.1, h2.2.2.1 (by decide)⟩

theorem runUnits_errCh (env : Env) (builderConfig : BuilderConfig)
    (projectConfig : ProjectConfig) (order : List BuildConfig) (tr : Trace)
    (errCh : List Err) :
    (runUnits env builderConfig projectConfig order tr errCh).1 =
      errCh ++ (unitOutcomes env builderConfig projectConfig order tr).filterMap Prod.snd := by
  induction order generalizing tr errCh with
  | nil => simp [runUnits, unitOutcomes]
  | cons b rest ih =>
    unfold runUnits unitOutcomes
    rcases hb : build env builderConfig projectConfig b tr with ⟨r, tr1⟩
    cases r with
    | some e => simp [ih, List.filterMap_cons]
    | none => simp [ih, List.filterMap_cons]

theorem unitOutcomes_fst (env : Env) (builderConfig : BuilderConfig)
    (projectConfig : ProjectConfig) (order : List BuildConfig) (tr : Trace) :
    (unitOutcomes env builderConfig projectConfig order tr).map Prod.fst = order := by
  induction order generalizing tr with
  | nil => rfl
  | cons b rest ih => simp [unitOutcomes, ih]

theorem head?_filterMap_snd_eq_none (outcomes : List (BuildConfig × Option Err)) :
    (outcomes.filterMap Prod.snd).head? = none ↔ ∀ o ∈ outcomes, o.2 = none := by
  induction outcomes with
  | nil => simp
  | cons o rest ih =>
    rcases o with ⟨b, r⟩
    cases r with
    | none => simp [List.filterMap_cons, ih]
    | some e => simp [List.filterMap_cons]

theorem startedBuilds_eq (projectConfig : ProjectConfig) (kind : String) :
    startedBuilds projectConfig kind =
      projectConfig.Builds.filter fun b => decide (kind = "all" ∨ kind = b.Kind) := by
  unfold startedBuilds
  apply List.filter_congr
  intro b _
  by_cases h1 : kind = "all" <;> by_cases h2 : kind = b.Kind <;> simp [h1, h2]

/-- What `buildProjectDir` returns once loading, isolation and chdir succeeded. -/
theorem buildProjectDir_result (env : Env) (dir : Path) (builderConfig : BuilderConfig)
    (kind : String) (push : Bool) (tr tr1 tr2 : Trace) (loaded : ProjectConfig)
    (buildDir : String) (fs : DstFS)
    (hload : loadProjectConfig env dir tr = (.ok loaded, tr1))
    (hdir : createBuildDir env { loaded with Push := push } tr1 = (.ok (buildDir, fs), tr2))
    (hchdir : env.chdir buildDir = none) :
    (buildProjectDir env dir builderConfig kind push tr).1 =
      ((unitOutcomes env builderConfig
          { { loaded with Push := push } with BuildDir := buildDir }
          (env.schedule (startedBuilds
            { { loaded with Push := push } with BuildDir := buildDir } kind)).1
          tr2).filterMap Prod.snd).head? := by
  unfold buildProjectDir
  rw [hload]
  simp only
  rw [hdir]
  simp only
  rw [hchdir]
  simp only
  rw [runUnits_errCh]
  simp

/-- The commands `runUnits` leaves in the trace: those of every unit, in order. -/
theorem runUnits_trace (env : Env) (builderConfig : BuilderConfig)
    (projectConfig : ProjectConfig) (order : List BuildConfig) (tr : Trace)
    (errCh : List Err) :
    (runUnits env builderConfig projectConfig order tr errCh).2 =
      unitsTrace env builderConfig projectConfig order tr := by
  induction order generalizing tr errCh with
  | nil => rfl
  | cons b rest ih =>
    unfold runUnits unitsTrace
    rcases hb : build env builderConfig projectConfig b tr with ⟨r, tr1⟩
    cases r with
    | some e => simp only [List.foldl_cons, hb]; exact ih tr1 _
    | none => simp only [List.foldl_cons, hb]; exact ih tr1 _

/-- The trace of `buildProjectDir` once loading, isolation and chdir succeeded. -/
theorem buildProjectDir_trace (env : Env) (dir : Path) (builderConfig : BuilderConfig)
    (kind : String) (push : Bool) (tr tr1 tr2 : Trace) (loaded : ProjectConfig)
    (buildDir : String) (fs : DstFS)
    (hload : loadProjectConfig env dir tr = (.ok loaded, tr1))
    (hdir : createBuildDir env { loaded with Push := push } tr1 = (.ok (buildDir, fs), tr2))
    (hchdir : env.chdir buildDir = none) :
    (buildProjectDir env dir builderConfig kind push tr).2 =
      unitsTrace env builderConfig
        { { loaded with Push := push } with BuildDir := buildDir }
        (env.schedule (startedBuilds
          { { loaded with Push := push } with BuildDir := buildDir } kind)).1
        tr2 := by
  unfold buildProjectDir
  rw [hload]
  simp only
  rw [hdir]
  simp only
  rw [hchdir]
  simp only
  rw [← runUnits_trace env builderConfig _ _ tr2 []]

/-- An outcome of the units is what `build` returned for one of them, run on the
trace left by the units before it. -/
theorem mem_unitOutcomes (env : Env) (builderConfig : BuilderConfig)
    (projectConfig : ProjectConfig) :
    ∀ (order : List BuildConfig) (tr : Trace) (o : BuildConfig × Option Err),
    o ∈ unitOutcomes env builderConfig projectConfig order tr ↔
      ∃ before b after, order = before ++ b :: after
        ∧ o = (b, (build env builderConfig projectConfig b
            (unitsTrace env builderConfig projectConfig before tr)).1)
  | [], tr, o => by
    simp [unitOutcomes]
  | a :: rest, tr, o => by
    simp only [unitOutcomes, List.mem_cons]
    constructor
    · rintro (h | h)
      · exact ⟨[], a, rest, rfl, h⟩
      · obtain ⟨before, b, after, hsplit, ho⟩ :=
          (mem_unitOutcomes env builderConfig projectConfig rest _ o).1 h
        refine ⟨a :: before, b, after, by rw [hsplit]; rfl, ?_⟩
        rw [ho]
        rfl
    · rintro ⟨before, b, after, hsplit, ho⟩
      cases before with
      | nil =>
        simp only [List.nil_append, List.cons.injEq] at hsplit
        left
        rw [ho, hsplit.1]
        rfl
      | cons a' before' =>
        simp only [List.cons_append, List.cons.injEq] at hsplit
        right
        apply (mem_unitOutcomes env builderConfig projectConfig rest _ o).2
        refine ⟨before', b, after, hsplit.2, ?_⟩
        rw [ho, hsplit.1]
        rfl

/-- C5: given that descriptor loading, build-directory isolation and the chdir
succeed, what `buildProjectDir` runs after them is exactly the build targets
whose kind matches the filter (the filter is `all` or equals the target's
kind), each once, in some order, and nothing for the targets that do not
match: its trace is the trace of `build` on these targets one after the
other. It returns nil if and only if every one of these builds returns nil,
and otherwise one error, which is the error that one of them returned. In
particular, when at least one target matches and all of them fail, it
returns an error. -/
theorem buildProjectDir_aggregates (env : Env) (dir : Path) (builderConfig : BuilderConfig)
    (kind : String) (push : Bool) (tr tr1 tr2 : Trace) (loaded : ProjectConfig)
    (buildDir : String) (fs : DstFS)
    (hload : loadProjectConfig env dir tr = (.ok loaded, tr1))
    (hdir : createBuildDir env { loaded with Push := push } tr1 = (.ok (buildDir, fs), tr2))
    (hchdir : env.chdir buildDir = none) :
    ∃ order : List BuildConfig,
      order.Perm (loaded.Builds.filter fun b => decide (kind = "all" ∨ kind = b.Kind))
      ∧ (buildProjectDir env dir builderConfig kind push tr).2 =
          unitsTrace env builderConfig
            { { loaded with Push := push } with BuildDir := buildDir } order tr2
      ∧ ((buildProjectDir env dir builderConfig kind push tr).1 = none ↔
          ∀ before b after, order = before ++ b :: after →
            (build env builderConfig
              { { loaded with Push := push } with BuildDir := buildDir } b
              (unitsTrace env builderConfig
                { { loaded with Push := push } with BuildDir := buildDir } before tr2)).1
              = none)
      ∧ (∀ e, (buildProjectDir env dir builderConfig kind push tr).1 = some e →
          ∃ before b after, order = before ++ b :: after
            ∧ (build env builderConfig
                { { loaded with Push := push } with BuildDir := buildDir } b
                (unitsTrace env builderConfig
                  { { loaded with Push := push } with BuildDir := buildDir } before tr2)).1
                = some e)
      ∧ (order ≠ [] →
          (∀ before b after, order = before ++ b :: after →
            (build env builderConfig
              { { loaded with Push := push } with BuildDir := buildDir } b
              (unitsTrace env builderConfig
                { { loaded with Push := push } with BuildDir := buildDir } before tr2)).1
              ≠ none) →
          ∃ e, (buildProjectDir env dir builderConfig kind push tr).1 = some e) := by
  have hres := buildProjectDir_result env dir builderConfig kind push tr tr1 tr2 loaded
    buildDir fs hload hdir hchdir
  have htrace := buildProjectDir_trace env dir builderConfig kind push tr tr1 tr2 loaded
    buildDir fs hload hdir hchdir
  have hperm : (env.schedule (startedBuilds
      { { loaded with Push := push } with BuildDir := buildDir } kind)).1.Perm
      (loaded.Builds.filter fun b => decide (kind = "all" ∨ kind = b.Kind)) :=
    (env.schedule (startedBuilds
      { { loaded with Push := push } with BuildDir := buildDir } kind)).2.trans
      (List.Perm.of_eq (startedBuilds_eq _ kind))
  generalize (env.schedule (startedBuilds
    { { loaded with Push := push } with BuildDir := buildDir } kind)).1 = order
    at hres htrace hperm
  generalize hpc : ({ { loaded with Push := push } with BuildDir := buildDir } : ProjectConfig)
    = projectConfig at hres htrace
  have hmem := mem_unitOutcomes env builderConfig projectConfig order tr2
  have hnone := head?_filterMap_snd_eq_none
    (unitOutcomes env builderConfig projectConfig order tr2)
  refine ⟨order, hperm, htrace, ?_, ?_, ?_⟩
  · rw [hres, hnone]
    constructor
    · intro h before b after hsplit
      exact h _ ((hmem _).2 ⟨before, b, after, hsplit, rfl⟩)
    · intro h o ho
      obtain ⟨before, b, after, hsplit, hob⟩ := (hmem o).1 ho
      rw [hob]
      exact h before b after hsplit
  · intro e he
    rw [hres] at he
    have hin : e ∈ (unitOutcomes env builderConfig projectConfig order tr2).filterMap
        Prod.snd := List.mem_of_mem_head? he
    rw [List.mem_filterMap] at hin
    obtain ⟨⟨b', r⟩, hbr, hr⟩ := hin
    simp only at hr
    subst hr
    obtain ⟨before, b, after, hsplit, hob⟩ := (hmem _).1 hbr
    refine ⟨before, b, after, hsplit, ?_⟩
    exact (congrArg Prod.snd hob).symm
  · intro hne hall
    rw [hres]
    cases hh : ((unitOutcomes env builderConfig projectConfig order tr2).filterMap
        Prod.snd).head? with
    | some e => exact ⟨e, rfl⟩
    | none =>
      exfalso
      have hall' := hnone.1 hh
      cases horder : order with
      | nil => exact hne horder
      | cons b rest =>
        have h1 := hall [] b rest horder
        apply h1
        exact hall' _ ((hmem _).2 ⟨[], b, rest, horder, rfl⟩)

/-- Witness for C5: a project with the two builds `oci` and `tarball`, both
matching the filter `all` and both failing: loading, isolation and chdir
succeed, nothing is run for the builds, and one error is returned. -/
theorem buildProjectDir_aggregates_witness :
    (createBuildDir failingEnv (demoProject false) []).1 = .ok ("/tmp/bob--foo--abc123--0", [])
    ∧ failingEnv.chdir "/tmp/bob--foo--abc123--0" = none
    ∧ ∃ e, (buildProjectDir failingEnv ["repo", "foo"] demoBuilder "all" false []).1 = some e := by
  refine ⟨rfl, rfl, ?_⟩
  obtain ⟨order, hperm, _, _, _, hall⟩ :=
    buildProjectDir_aggregates failingEnv ["repo", "foo"] demoBuilder "all" false []
      _ _ _ _ [] rfl rfl rfl
  have hmemb : ∀ b ∈ order, b.Kind = "oci" ∨ b.Kind = "tarball" := by
    intro b hb
    have hb' := hperm.mem_iff.1 hb
    simp only [List.mem_filter] at hb'
    have hb2 := hb'.1
    simp only [List.mem_cons, List.mem_singleton, List.not_mem_nil, or_false] at hb2
    rcases hb2 with h | h <;> rw [h]
    · exact Or.inl rfl
    · exact Or.inr rfl
  refine hall ?_ ?_
  · intro hnil
    have hlen := hperm.length_eq
    rw [hnil] at hlen
    exact absurd hlen (by decide)
  · intro before b after hsplit
    have hb : b ∈ order := by rw [hsplit]; simp
    rcases hmemb b hb with hk | hk
    · simp [build, hk]
    · simp [build, hk]

/-! ## Change detection -/

/-- C1 (failing input): one project `foo` below the base whose manifest cannot
be fetched. The loop of `findChangedDirs` puts the directory into `buildDirs`,
and `findChangedDirs` returns the empty list all the same; it never returns
anything else when it returns without error. -/
theorem findChangedDirs_returns_empty :
    findBuildableDirs changedEnv demoBuilder = .ok [["repo", "foo"]]
    ∧ (changedLoop changedEnv demoBuilder [["repo", "foo"]] [] []).1 = .ok [["repo", "foo"]]
    ∧ (findChangedDirs changedEnv demoBuilder []).1 = .ok []
    ∧ ∀ (env : Env) (bobConfig : BuilderConfig) (tr : Trace) (dirs : List Path),
        (findChangedDirs env bobConfig tr).1 = .ok dirs → dirs = [] := by
  refine ⟨rfl, rfl, rfl, ?_⟩
  intro env bobConfig tr dirs h
  unfold findChangedDirs at h
  split at h
  · cases h
  · split at h
    · cases h
    · simp only [Except.ok.injEq] at h
      exact h.symm

/-! ## Project discovery -/

/-- C7 (failing input): below the base, a directory `a` without descriptor that
cannot be read and a project `b`. `findBuildableDirs` returns the list with
`b` and a nil error: the error of reading `a` is lost. -/
theorem findBuildableDirs_drops_read_error :
    (search (.dir (some "open /repo/a: permission denied") .notExist .nil) ["repo", "a"] []).1
        = some "open /repo/a: permission denied"
    ∧ findBuildableDirs unreadableEnv demoBuilder = .ok [["repo", "b"]] := by
  exact ⟨rfl, rfl⟩

mutual
/-- What `search` leaves in `dirs`: what was there, then the recorded paths under `dir`. -/
theorem search_dirs : ∀ (node : Node) (dir : Path) (dirs : List Path),
    (search node dir dirs).2 = dirs ++ (recordedBelow node).map (dir ++ ·)
  | .file, _, dirs => by simp [search, recordedBelow]
  | .dir (some _) _ _, _, dirs => by simp [search, recordedBelow]
  | .dir none _ entries, dir, dirs => by
    simp only [search, recordedBelow]
    exact searchLoop_dirs entries dir dirs
/-- What the loop of `search` leaves in `dirs`. -/
theorem searchLoop_dirs : ∀ (entries : Entries) (dir : Path) (dirs : List Path),
    (searchLoop entries dir dirs).2 = dirs ++ (recordedAmong entries).map (dir ++ ·)
  | .nil, _, dirs => by simp [searchLoop, recordedAmong]
  | .cons name .file rest, dir, dirs => by
    simp only [searchLoop, recordedAmong]
    rw [searchLoop_dirs rest dir dirs]
    simp
  | .cons name (.dir readErr probe sub) rest, dir, dirs => by
    simp only [searchLoop, recordedAmong]
    by_cases hp : probe = StatResult.notExist
    · rw [if_pos hp, if_pos hp, searchLoop_dirs rest dir, search_dirs (.dir readErr probe sub)]
      simp [List.map_map, Function.comp_def]
    · rw [if_neg hp, if_neg hp, searchLoop_dirs rest dir]
      simp
end

/-- The loop of `search` never fails. -/
theorem searchLoop_err : ∀ (entries : Entries) (dir : Path) (dirs : List Path),
    (searchLoop entries dir dirs).1 = none
  | .nil, _, _ => rfl
  | .cons name .file rest, dir, dirs => by
    simp only [searchLoop]
    exact searchLoop_err rest dir dirs
  | .cons name (.dir readErr probe sub) rest, dir, dirs => by
    simp only [searchLoop]
    split
    · exact searchLoop_err rest dir _
    · exact searchLoop_err rest dir _

/-- Every recorded path starts with the name of an entry. -/
theorem recordedAmong_head : ∀ (entries : Entries) (rel : List String),
    rel ∈ recordedAmong entries → ∃ name tl, rel = name :: tl ∧ name ∈ entries.names
  | .nil, rel, h => by simp [recordedAmong] at h
  | .cons name node rest, rel, h => by
    simp only [recordedAmong, List.mem_append] at h
    rcases h with h | h
    · refine ⟨name, rel.tail, ?_, by simp [Entries.names]⟩
      cases node with
      | file => simp at h
      | dir readErr probe sub =>
        simp only at h
        split at h
        · simp only [List.mem_map] at h
          obtain ⟨x, _, hx⟩ := h
          rw [← hx]; rfl
        · simp only [List.mem_singleton] at h
          rw [h]; rfl
    · obtain ⟨n, tl, hrel, hn⟩ := recordedAmong_head rest rel h
      exact ⟨n, tl, hrel, by simp [Entries.names, hn]⟩

/-- The recorded paths that come from the entry `name` all start with `name`. -/
theorem recorded_of_entry_head (name : String) (node : Node) (rel : List String)
    (h : rel ∈ (match node with
      | .file => []
      | .dir _ probe _ =>
        if probe = StatResult.notExist then (recordedBelow node).map (name :: ·)
        else [[name]])) :
    ∃ tl, rel = name :: tl := by
  cases node with
  | file => simp at h
  | dir readErr probe sub =>
    simp only at h
    split at h
    · simp only [List.mem_map] at h
      obtain ⟨x, _, hx⟩ := h
      exact ⟨x, hx.symm⟩
    · simp only [List.mem_singleton] at h
      exact ⟨[], h⟩

mutual
/-- In a well-formed tree no recorded path below a directory is a prefix of another. -/
theorem recordedBelow_pairwise : ∀ (node : Node), wfNode node = true →
    (recordedBelow node).Pairwise fun a b => ¬ a <+: b ∧ ¬ b <+: a
  | .file, _ => by simp [recordedBelow]
  | .dir (some _) _ _, _ => by simp [recordedBelow]
  | .dir none _ entries, h => by
    simp only [wfNode, Bool.and_eq_true, decide_eq_true_eq] at h
    simp only [recordedBelow]
    exact recordedAmong_pairwise entries h.1 h.2
/-- In a well-formed directory no recorded path is a prefix of another. -/
theorem recordedAmong_pairwise : ∀ (entries : Entries), entries.names.Nodup →
    wfEntries entries = true →
    (recordedAmong entries).Pairwise fun a b => ¬ a <+: b ∧ ¬ b <+: a
  | .nil, _, _ => by simp [recordedAmong]
  | .cons name node rest, hnd, hwf => by
    simp only [Entries.names, List.nodup_cons] at hnd
    simp only [wfEntries, Bool.and_eq_true] at hwf
    simp only [recordedAmong]
    rw [List.pairwise_append]
    refine ⟨?_, recordedAmong_pairwise rest hnd.2 hwf.2, ?_⟩
    · cases node with
      | file => simp
      | dir readErr probe sub =>
        simp only
        split
        · rw [List.pairwise_map]
          have ih := recordedBelow_pairwise (.dir readErr probe sub) hwf.1
          refine ih.imp ?_
          intro a b hab
          simp only [List.cons_prefix_cons, true_and]
          exact hab
        · simp
    · intro a ha b hb
      obtain ⟨tl, hatl⟩ := recorded_of_entry_head name node a ha
      obtain ⟨n, tl', hbtl, hn⟩ := recordedAmong_head rest b hb
      subst hatl
      subst hbtl
      have hne : name ≠ n := fun h => hnd.1 (h ▸ hn)
      simp only [List.cons_prefix_cons]
      exact ⟨fun h => hne h.1, fun h => hne h.1.symm⟩
end

theorem probeAt_nil (entries : Entries) : probeAt entries [] = none := by
  cases entries <;> rfl

theorem probeAt_cons_ne (name n : String) (node : Node) (rest : Entries) (tl : List String)
    (h : name ≠ n) :
    probeAt (.cons name node rest) (n :: tl) = probeAt rest (n :: tl) := by
  cases tl with
  | nil => simp [probeAt, Entries.find, h]
  | cons next tl => simp [probeAt, Entries.find, h]

theorem probeAt_cons_file (name : String) (rest : Entries) (tl : List String) :
    probeAt (.cons name .file rest) (name :: tl) = none := by
  cases tl with
  | nil => simp [probeAt, Entries.find]
  | cons next tl => simp [probeAt, Entries.find]

theorem probeAt_cons_dir_single (name : String) (readErr : Option Err) (probe : StatResult)
    (sub rest : Entries) :
    probeAt (.cons name (.dir readErr probe sub) rest) [name] = some probe := by
  simp [probeAt, Entries.find]

theorem probeAt_cons_dir_deeper (name : String) (readErr : Option Err) (probe : StatResult)
    (sub rest : Entries) (tl : List String) (h : tl ≠ []) :
    probeAt (.cons name (.dir readErr probe sub) rest) (name :: tl) = probeAt sub tl := by
  cases tl with
  | nil => exact absurd rfl h
  | cons next tl => simp [probeAt, Entries.find]

theorem not_recorded_nil (entries : Entries) : ¬ Recorded entries [] := by
  rintro ⟨⟨probe, h, _⟩, _⟩
  rw [probeAt_nil] at h
  cases h

/-- An entry with another name does not matter to what is recorded under `n`. -/
theorem recorded_cons_ne (name n : String) (node : Node) (rest : Entries) (tl : List String)
    (h : name ≠ n) :
    Recorded (.cons name node rest) (n :: tl) ↔ Recorded rest (n :: tl) := by
  have key : ∀ q, q <+: n :: tl → q ≠ [] →
      probeAt (.cons name node rest) q = probeAt rest q := by
    intro q hq hne
    cases q with
    | nil => exact absurd rfl hne
    | cons m q' =>
      have hm : m = n := (List.cons_prefix_cons.1 hq).1
      subst hm
      exact probeAt_cons_ne name m node rest q' h
  unfold Recorded
  rw [probeAt_cons_ne name n node rest tl h]
  constructor
  · rintro ⟨h1, h2⟩
    exact ⟨h1, fun q hq hne hne' => by rw [← key q hq hne]; exact h2 q hq hne hne'⟩
  · rintro ⟨h1, h2⟩
    exact ⟨h1, fun q hq hne hne' => by rw [key q hq hne]; exact h2 q hq hne hne'⟩

theorem not_recorded_cons_file (name : String) (rest : Entries) (tl : List String) :
    ¬ Recorded (.cons name .file rest) (name :: tl) := by
  rintro ⟨⟨probe, h, _⟩, _⟩
  rw [probeAt_cons_file] at h
  cases h

/-- Under an entry whose probe does not report not-exist, only the entry itself is recorded. -/
theorem recorded_cons_project (name : String) (readErr : Option Err) (probe : StatResult)
    (sub rest : Entries) (tl : List String) (hp : probe ≠ StatResult.notExist) :
    Recorded (.cons name (.dir readErr probe sub) rest) (name :: tl) ↔ tl = [] := by
  constructor
  · rintro ⟨_, h2⟩
    by_contra htl
    have h := h2 [name] (List.cons_prefix_cons.2 ⟨rfl, List.nil_prefix⟩)
      (List.cons_ne_nil _ _) (fun he => htl (List.cons.inj he).2.symm)
    rw [probeAt_cons_dir_single] at h
    exact hp (Option.some.inj h)
  · intro htl
    subst htl
    refine ⟨⟨probe, probeAt_cons_dir_single name readErr probe sub rest, hp⟩, ?_⟩
    intro q hq hne hne'
    exfalso
    cases q with
    | nil => exact hne rfl
    | cons m q' =>
      have h := List.cons_prefix_cons.1 hq
      have hq' : q' = [] := List.prefix_nil.1 h.2
      exact hne' (by rw [h.1, hq'])

/-- Under an entry without descriptor, what is recorded is what is recorded inside it. -/
theorem recorded_cons_descend (name : String) (readErr : Option Err)
    (sub rest : Entries) (tl : List String) :
    Recorded (.cons name (.dir readErr .notExist sub) rest) (name :: tl) ↔ Recorded sub tl := by
  cases tl with
  | nil =>
    constructor
    · rintro ⟨⟨probe, h, hp⟩, _⟩
      rw [probeAt_cons_dir_single] at h
      exact absurd (Option.some.inj h).symm hp
    · intro h
      exact absurd h (not_recorded_nil sub)
  | cons next tl =>
    unfold Recorded
    rw [probeAt_cons_dir_deeper name readErr .notExist sub rest (next :: tl) (by simp)]
    constructor
    · rintro ⟨h1, h2⟩
      refine ⟨h1, ?_⟩
      intro q hq hne hne'
      have h := h2 (name :: q) (List.cons_prefix_cons.2 ⟨rfl, hq⟩) (by simp)
        (by simpa using hne')
      rwa [probeAt_cons_dir_deeper name readErr .notExist sub rest q hne] at h
    · rintro ⟨h1, h2⟩
      refine ⟨h1, ?_⟩
      intro q hq hne hne'
      cases q with
      | nil => exact absurd rfl hne
      | cons m q' =>
        have h := List.cons_prefix_cons.1 hq
        have hm : m = name := h.1
        subst hm
        by_cases hq' : q' = []
        · subst hq'
          exact probeAt_cons_dir_single m readErr .notExist sub rest
        · rw [probeAt_cons_dir_deeper m readErr .notExist sub rest q' hq']
          exact h2 q' h.2 hq' (by simpa using hne')

theorem probeAt_empty (rel : List String) : probeAt .nil rel = none := by
  cases rel with
  | nil => rfl
  | cons n tl => cases tl <;> simp [probeAt, Entries.find]

/-- In a well-formed tree whose descended directories are readable, the paths
recorded among the entries of a directory are those that `Recorded` describes. -/
theorem recordedAmong_iff : ∀ (entries : Entries), entries.names.Nodup →
    wfEntries entries = true → readableEntries entries = true →
    ∀ rel, rel ∈ recordedAmong entries ↔ Recorded entries rel
  | .nil, _, _, _, rel => by
    simp only [recordedAmong, List.not_mem_nil, false_iff]
    rintro ⟨⟨probe, h, _⟩, _⟩
    rw [probeAt_empty] at h
    cases h
  | .cons name node rest, hnd, hwf, hrd, rel => by
    simp only [Entries.names, List.nodup_cons] at hnd
    simp only [wfEntries, Bool.and_eq_true] at hwf
    simp only [readableEntries, Bool.and_eq_true] at hrd
    cases rel with
    | nil =>
      constructor
      · intro h
        obtain ⟨n, tl, hrel, _⟩ := recordedAmong_head _ _ h
        cases hrel
      · intro h
        exact absurd h (not_recorded_nil _)
    | cons n tl =>
      by_cases hn : name = n
      · subst hn
        have hnot : name :: tl ∉ recordedAmong rest := by
          intro h
          obtain ⟨m, tl', hrel, hm⟩ := recordedAmong_head _ _ h
          cases hrel
          exact hnd.1 hm
        simp only [recordedAmong, List.mem_append, hnot, or_false]
        cases node with
        | file =>
          simp only [List.not_mem_nil, false_iff]
          exact not_recorded_cons_file name rest tl
        | dir readErr probe sub =>
          by_cases hp : probe = StatResult.notExist
          · subst hp
            simp only [if_true]
            rw [recorded_cons_descend]
            have hr := hrd.1
            simp only [readableNode, Bool.and_eq_true, Option.isNone_iff_eq_none] at hr
            have hw := hwf.1
            simp only [wfNode, Bool.and_eq_true, decide_eq_true_eq] at hw
            rw [hr.1]
            simp only [recordedBelow, List.mem_map, List.cons.injEq, true_and, exists_eq_right]
            exact recordedAmong_iff sub hw.1 hw.2 hr.2 tl
          · simp only [if_neg hp, List.mem_singleton, List.cons.injEq, true_and]
            rw [recorded_cons_project name readErr probe sub rest tl hp]
      · have hnot : n :: tl ∉ (match node with
            | .file => []
            | .dir _ probe _ =>
              if probe = StatResult.notExist then (recordedBelow node).map (name :: ·)
              else [[name]]) := by
          intro h
          obtain ⟨tl', htl⟩ := recorded_of_entry_head name node _ h
          exact hn (List.cons.inj htl).1.symm
        simp only [recordedAmong, List.mem_append, hnot, false_or]
        rw [recorded_cons_ne name n node rest tl hn]
        exact recordedAmong_iff rest hnd.2 hwf.2 hrd.2 (n :: tl)

/-- C6 (amended): for every well-formed directory tree (no directory lists a
name twice) on which `findBuildableDirs` returns a list, no returned
directory is equal to or nested beneath another returned directory; and
when every directory that is descended into can be read, the returned
directories are exactly those below the base whose descriptor probe does not
report not-exist (the descriptor is there, or the probe fails otherwise) and
all of whose proper ancestors below the base report not-exist. -/
theorem findBuildableDirs_not_nested (env : Env) (bobConfig : BuilderConfig)
    (dirs : List Path) (hwf : wfNode (env.tree bobConfig.baseDir) = true)
    (hok : findBuildableDirs env bobConfig = .ok dirs) :
    dirs.Pairwise (fun p q => ¬ p <+: q ∧ ¬ q <+: p)
    ∧ (readableNode (env.tree bobConfig.baseDir) = true →
        ∀ p, p ∈ dirs ↔
          ∃ rel, p = bobConfig.baseDir ++ rel
            ∧ Recorded (env.tree bobConfig.baseDir).entries rel) := by
  have hdirs : dirs = (recordedBelow (env.tree bobConfig.baseDir)).map
      (bobConfig.baseDir ++ ·) := by
    have h := search_dirs (env.tree bobConfig.baseDir) bobConfig.baseDir []
    unfold findBuildableDirs at hok
    rcases hs : search (env.tree bobConfig.baseDir) bobConfig.baseDir [] with ⟨r, ds⟩
    rw [hs] at hok h
    cases r with
    | some e => cases hok
    | none =>
      simp only [Except.ok.injEq] at hok
      simp only [List.nil_append] at h
      rw [← hok, h]
  refine ⟨?_, ?_⟩
  · rw [hdirs, List.pairwise_map]
    refine (recordedBelow_pairwise _ hwf).imp ?_
    intro a b hab
    simp only [List.prefix_append_right_inj]
    exact hab
  · intro hrd p
    rw [hdirs]
    cases hroot : env.tree bobConfig.baseDir with
    | file =>
      unfold findBuildableDirs at hok
      rw [hroot] at hok
      simp [search] at hok
    | dir readErr probe entries =>
      rw [hroot] at hwf hrd
      simp only [wfNode, Bool.and_eq_true, decide_eq_true_eq] at hwf
      simp only [readableNode, Bool.and_eq_true, Option.isNone_iff_eq_none] at hrd
      rw [hrd.1]
      simp only [recordedBelow, Node.entries, List.mem_map]
      constructor
      · rintro ⟨rel, hrel, hp⟩
        exact ⟨rel, hp.symm, (recordedAmong_iff entries hwf.1 hwf.2 hrd.2 rel).1 hrel⟩
      · rintro ⟨rel, hp, hrel⟩
        exact ⟨rel, (recordedAmong_iff entries hwf.1 hwf.2 hrd.2 rel).2 hrel, hp.symm⟩

/-- Witness for C6: a tree with a project `x` under a directory without
descriptor, a directory with a descriptor nested in `x`, a project `b` and a
plain file: the result is `/repo/a/x` and `/repo/b`. -/
theorem findBuildableDirs_not_nested_witness :
    wfNode (nestedEnv.tree demoBuilder.baseDir) = true
    ∧ findBuildableDirs nestedEnv demoBuilder = .ok [["repo", "a", "x"], ["repo", "b"]]
    ∧ [["repo", "a", "x"], ["repo", "b"]].Pairwise
        (fun p q : Path => ¬ p <+: q ∧ ¬ q <+: p) :=
  ⟨by decide, rfl,
   (findBuildableDirs_not_nested nestedEnv demoBuilder [["repo", "a", "x"], ["repo", "b"]]
      (by decide) rfl).1⟩

/-- Counterexample to C6 as stated: a directory `a` below the base that holds no
descriptor and whose descriptor probe fails with permission denied is
returned, so the result is not exactly the directories that contain a
descriptor and have no ancestor below the base containing one. -/
theorem findBuildableDirs_guard_counterexample :
    findBuildableDirs guardedEnv demoBuilder = .ok [["repo", "a"]]
    ∧ ¬ (∀ p : Path, p ∈ [["repo", "a"]] ↔
          ∃ rel, p = demoBuilder.baseDir ++ rel
            ∧ ClaimedBuildable (guardedEnv.tree demoBuilder.baseDir).entries rel) := by
  refine ⟨rfl, ?_⟩
  intro h
  obtain ⟨rel, hrel, ⟨probe, hprobe, hholds⟩, _⟩ := (h ["repo", "a"]).1 (by simp)
  have hr : rel = ["a"] := by
    have : ["repo", "a"] = ["repo"] ++ rel := hrel
    simpa using this.symm
  subst hr
  have hp : probeAt (guardedEnv.tree demoBuilder.baseDir).entries ["a"]
      = some (StatResult.failed false) := rfl
  rw [hp] at hprobe
  cases hprobe
  cases hholds

/-! ## Build-directory isolation -/

mutual
/-- A successful copy of one entry adds exactly the resolved copy of the entry,
with the umask applied to the modes. -/
theorem copyEntry_ok (env : Env) : ∀ (node : Src) (path : Path) (fs fs1 : DstFS),
    copyEntry env node path fs = .ok fs1 →
    fs1 = fs ++ resolvedCopy (applyUmask · env.umask) node path
  | .link target, path, fs, fs1, h => by
    simp only [copyEntry] at h
    simp only [resolvedCopy]
    exact copyEntry_ok env target path fs fs1 h
  | .broken e, _, _, _, h => by simp [copyEntry] at h
  | .dir mode readErr entries, path, fs, fs1, h => by
    simp only [copyEntry] at h
    simp only [resolvedCopy]
    split at h
    · cases h
    · split at h
      · cases h
      · have ih := copyEntries_ok env entries path _ fs1 h
        rw [ih]
        simp
  | .file mode content, path, fs, fs1, h => by
    simp only [copyEntry] at h
    split at h
    · cases h
    · split at h
      · cases h
      · simp only [Except.ok.injEq] at h
        simp only [resolvedCopy]
        exact h.symm
/-- A successful run of the loop of `copyDir` adds exactly the resolved copies
of the entries, with the umask applied to the modes. -/
theorem copyEntries_ok (env : Env) : ∀ (entries : SrcEntries) (dst : Path) (fs fs1 : DstFS),
    copyEntries env entries dst fs = .ok fs1 →
    fs1 = fs ++ resolvedCopyEntries (applyUmask · env.umask) entries dst
  | .nil, _, fs, fs1, h => by
    simp only [copyEntries, Except.ok.injEq] at h
    simp [resolvedCopyEntries, h]
  | .cons name node rest, dst, fs, fs1, h => by
    simp only [copyEntries] at h
    split at h
    · cases h
    · rename_i fs2 hnode
      have h1 := copyEntry_ok env node (dst ++ [name]) fs fs2 hnode
      have h2 := copyEntries_ok env rest dst fs2 fs1 h
      rw [h2, h1]
      simp [resolvedCopyEntries]
end

/-- A successful `copyDir` adds exactly the resolved copies of the entries of
the source, with the umask applied to the modes. -/
theorem copyDir_ok (env : Env) : ∀ (src : Src) (dst : Path) (fs fs1 : DstFS),
    copyDir env src dst fs = .ok fs1 →
    fs1 = fs ++ resolvedCopyEntries (applyUmask · env.umask) src.entries dst
  | .dir _ (some e) _, _, _, _, h => by simp [copyDir] at h
  | .dir _ none entries, dst, fs, fs1, h => by
    simp only [copyDir] at h
    exact copyEntries_ok env entries dst fs fs1 h
  | .link target, dst, fs, fs1, h => by
    simp only [copyDir] at h
    simp only [Src.entries]
    exact copyDir_ok env target dst fs fs1 h
  | .file _ _, _, _, _, h => by simp [copyDir] at h
  | .broken e, _, _, _, h => by simp [copyDir] at h

mutual
/-- The copy of an entry holds no symbolic link. -/
theorem resolvedCopy_no_symlink (mask : Nat → Nat) :
    ∀ (node : Src) (path : Path) (pe : Path × DstEntry),
    pe ∈ resolvedCopy mask node path → pe.2.isSymlink = false
  | .file mode (.ok content), path, pe, h => by
    simp only [resolvedCopy, List.mem_singleton] at h
    rw [h]; rfl
  | .file _ (.error _), _, pe, h => by simp [resolvedCopy] at h
  | .dir mode _ entries, path, pe, h => by
    simp only [resolvedCopy, List.mem_cons] at h
    rcases h with h | h
    · rw [h]; rfl
    · exact resolvedCopyEntries_no_symlink mask entries path pe h
  | .link target, path, pe, h => by
    simp only [resolvedCopy] at h
    exact resolvedCopy_no_symlink mask target path pe h
  | .broken _, _, pe, h => by simp [resolvedCopy] at h
/-- The copies of the entries of a directory hold no symbolic link. -/
theorem resolvedCopyEntries_no_symlink (mask : Nat → Nat) :
    ∀ (entries : SrcEntries) (dst : Path) (pe : Path × DstEntry),
    pe ∈ resolvedCopyEntries mask entries dst → pe.2.isSymlink = false
  | .nil, _, pe, h => by simp [resolvedCopyEntries] at h
  | .cons name node rest, dst, pe, h => by
    simp only [resolvedCopyEntries, List.mem_append] at h
    rcases h with h | h
    · exact resolvedCopy_no_symlink mask node (dst ++ [name]) pe h
    · exact resolvedCopyEntries_no_symlink mask rest dst pe h
end

/-- The copy of a link is the copy of what it resolves to. -/
theorem resolvedCopy_resolveLinks (mask : Nat → Nat) : ∀ (node : Src) (path : Path),
    resolvedCopy mask node path = resolvedCopy mask (resolveLinks node) path
  | .link target, path => by
    simp only [resolvedCopy, resolveLinks]
    exact resolvedCopy_resolveLinks mask target path
  | .file _ _, _ => rfl
  | .dir _ _ _, _ => rfl
  | .broken _, _ => rfl

/-- The copy of an entry of a directory is part of the copy of the directory. -/
theorem resolvedCopy_of_find (mask : Nat → Nat) :
    ∀ (entries : SrcEntries) (dst : Path) (name : String)
    (node : Src), entries.find name = some node →
    ∀ pe ∈ resolvedCopy mask node (dst ++ [name]), pe ∈ resolvedCopyEntries mask entries dst
  | .nil, _, _, _, h, _, _ => by simp [SrcEntries.find] at h
  | .cons n first rest, dst, name, node, h, pe, hpe => by
    simp only [SrcEntries.find] at h
    simp only [resolvedCopyEntries, List.mem_append]
    by_cases hn : n = name
    · rw [if_pos hn] at h
      cases h
      subst hn
      exact Or.inl hpe
    · rw [if_neg hn] at h
      exact Or.inr (resolvedCopy_of_find mask rest dst name node h pe hpe)

/-- The copy of the source entry at a relative path is part of the copy of the directory. -/
theorem resolvedCopy_of_sourceAt (mask : Nat → Nat) :
    ∀ (rel : List String) (entries : SrcEntries) (dst : Path)
    (node : Src), sourceAt entries rel = some node →
    ∀ pe ∈ resolvedCopy mask node (dst ++ rel), pe ∈ resolvedCopyEntries mask entries dst
  | [], _, _, _, h, _, _ => by simp [sourceAt] at h
  | [name], entries, dst, node, h, pe, hpe => by
    simp only [sourceAt] at h
    exact resolvedCopy_of_find mask entries dst name node h pe hpe
  | name :: next :: rest, entries, dst, node, h, pe, hpe => by
    simp only [sourceAt] at h
    cases hf : entries.find name with
    | none => simp [hf] at h
    | some parent =>
      rw [hf] at h
      simp only [Option.map_some'] at h
      cases hr : resolveLinks parent with
      | file _ _ => simp [hr] at h
      | link _ => simp [hr] at h
      | broken _ => simp [hr] at h
      | dir mode readErr sub =>
        rw [hr] at h
        simp only at h
        have hpath : dst ++ name :: next :: rest = (dst ++ [name]) ++ (next :: rest) := by simp
        rw [hpath] at hpe
        have ih := resolvedCopy_of_sourceAt mask (next :: rest) sub (dst ++ [name]) node h pe hpe
        apply resolvedCopy_of_find mask entries dst name parent hf
        rw [resolvedCopy_resolveLinks, hr]
        simp only [resolvedCopy, List.mem_cons]
        exact Or.inr ih

/-- A mode of which the umask clears nothing is kept. -/
theorem applyUmask_of_disjoint (perm umask : Nat) (h : perm &&& umask = 0) :
    applyUmask perm umask = perm := by
  unfold applyUmask
  rw [h]
  exact Nat.xor_zero perm

theorem applyUmask_zero : (applyUmask · 0) = id := by
  funext perm
  simp [applyUmask]

/-- C10 (amended): whenever `copyDir(src, dst)` returns no error on an empty
destination, what it has created under `dst` is the source with every
symbolic link replaced by a copy of what it resolves to: the same entry
names and the same directory structure, no symbolic link anywhere, for
every source entry that is or resolves to a regular file a regular file with
the same content at the same relative path, and for every source entry that
is or resolves to a directory a directory at the same relative path whose
mode bits are those of the source directory less the bits the process umask
clears. A directory keeps the source directory's mode bits when the umask
clears none of them, and under the umask 0 the copy is the tree of the claim,
modes included. -/
theorem copyDir_isolates (env : Env) (src : Src) (dst : Path) (fs : DstFS)
    (hok : copyDir env src dst [] = .ok fs) :
    fs = resolvedCopyEntries (applyUmask · env.umask) src.entries dst
    ∧ (∀ pe ∈ fs, pe.2.isSymlink = false)
    ∧ (∀ rel node, sourceAt src.entries rel = some node →
        (∀ mode content, resolveLinks node = .file mode (.ok content) →
          (dst ++ rel, DstEntry.file (applyUmask mode env.umask) content) ∈ fs)
        ∧ (∀ mode readErr sub, resolveLinks node = .dir mode readErr sub →
          (dst ++ rel, DstEntry.dir (applyUmask mode env.umask)) ∈ fs
          ∧ (mode &&& env.umask = 0 → (dst ++ rel, DstEntry.dir mode) ∈ fs)))
    ∧ (env.umask = 0 → fs = resolvedCopyEntries id src.entries dst) := by
  have hfs : fs = resolvedCopyEntries (applyUmask · env.umask) src.entries dst := by
    have h := copyDir_ok env src dst [] fs hok
    simpa using h
  refine ⟨hfs, ?_, ?_, ?_⟩
  · intro pe hpe
    rw [hfs] at hpe
    exact resolvedCopyEntries_no_symlink _ src.entries dst pe hpe
  · intro rel node hat
    have hsub := resolvedCopy_of_sourceAt (applyUmask · env.umask) rel src.entries dst node hat
    refine ⟨?_, ?_⟩
    · intro mode content hres
      rw [hfs]
      apply hsub
      rw [resolvedCopy_resolveLinks, hres]
      simp [resolvedCopy]
    · intro mode readErr sub hres
      have hmem : (dst ++ rel, DstEntry.dir (applyUmask mode env.umask)) ∈ fs := by
        rw [hfs]
        apply hsub
        rw [resolvedCopy_resolveLinks, hres]
        simp [resolvedCopy]
      refine ⟨hmem, ?_⟩
      intro hdisj
      rw [applyUmask_of_disjoint mode env.umask hdisj] at hmem
      exact hmem
  · intro hzero
    rw [hfs, hzero, applyUmask_zero]

/-- Witness for C10: a source with a file, a directory of mode 0750, a link to a
regular file and a link to a directory, copied to `/tmp/out` under the umask
022: no entry of the copy is a link, and the link to a regular file has
become a regular file with the same content. -/
theorem copyDir_isolates_witness :
    copyDir demoEnv linkedSource ["tmp", "out"] [] = .ok linkedCopy
    ∧ (∀ pe ∈ linkedCopy, pe.2.isSymlink = false)
    ∧ (["tmp", "out", "shared.txt"], DstEntry.file 420 "shared") ∈ linkedCopy :=
  ⟨rfl, (copyDir_isolates demoEnv linkedSource ["tmp", "out"] linkedCopy rfl).2.1,
   ((copyDir_isolates demoEnv linkedSource ["tmp", "out"] linkedCopy rfl).2.2.1
      ["shared.txt"] (.link (.file 420 (.ok "shared"))) rfl).1 420 "shared" rfl⟩

/-- Counterexample to C10 as stated: under the umask 022 the source directory
`vendor`, of mode 0775 (509), is copied as a directory of mode 0755 (493):
the copy succeeds and the directory has not kept the source directory's mode
bits. -/
theorem copyDir_umask_counterexample :
    copyDir demoEnv linkedSource ["tmp", "out"] [] = .ok linkedCopy
    ∧ (sourceAt linkedSource.entries ["vendor"]).map resolveLinks =
        some (.dir 509 none (.cons "lib.go" (.file 420 (.ok "package lib")) .nil))
    ∧ (["tmp", "out", "vendor"], DstEntry.dir 493) ∈ linkedCopy
    ∧ (["tmp", "out", "vendor"], DstEntry.dir 509) ∉ linkedCopy :=
  ⟨rfl, rfl, by decide, by decide⟩

end Bob
